import Mathlib

/-!
Verification of the auto-trader frontend HTTP client pipeline.

This file gives a shallow embedding of the request/response pipeline of
`frontend/src/api/config.ts` together with the JSON reviver of
`frontend/src/lib/revivers.ts` and the token-refresh helper of
`frontend/src/lib/authentication.ts`, and proves (or refutes) the
specified properties of that pipeline.

Modelling conventions:
- JSON-compatible runtime values are the mutual inductive `Jv` below.  A
  JavaScript `Date` object is modelled by its epoch-milliseconds value
  (`Jv.date`); an invalid `Date` is represented by `Option.none` at the
  parsing level and never stored in a `Jv`.
- JavaScript numbers are modelled as exact rationals (`ℚ`).  Binary
  floating-point rounding is abstracted away; every number handled by the
  pipeline originates from short decimal literals.
- Strings are ASCII in every key set and test input; the character
  classes of the JavaScript regular expressions involved are ASCII-only
  (`\d`, `[a-z0-9]`, `[A-Z]`), so Lean's ASCII `Char.isDigit`,
  `Char.isLower`, `Char.isUpper`, `Char.toLower`, `Char.toUpper`
  implement them exactly.
- Behaviour of the third-party npm packages used by `config.ts`
  (`ky`, `camelcase-keys`/`camelcase`, `snakecase-keys`/`snake-case`/
  `no-case`) and of the ECMAScript built-ins (`JSON.parse` reviver
  protocol, `new Date(string)`, `parseFloat`, `JSON.stringify`) is
  modelled from their published sources and from the ECMA-262
  specification; each such definition says what it models.
-/

namespace AutoTrader

mutual
/-- Runtime JSON-compatible value: the values flowing through the client
pipeline.  `date` is a JavaScript `Date` object identified by its epoch
milliseconds; trees produced by a plain `JSON.parse` never contain it. -/
inductive Jv where
  | null
  | bool (b : Bool)
  | num (q : ℚ)
  | str (s : String)
  | date (epochMs : Int)
  | arr (xs : JvList)
  | obj (fs : JvFields)
  deriving DecidableEq, Repr
inductive JvList where
  | nil
  | cons (hd : Jv) (tl : JvList)
  deriving DecidableEq, Repr
inductive JvFields where
  | nil
  | cons (key : String) (val : Jv) (tl : JvFields)
  deriving DecidableEq, Repr
end

/-- Property access `o[k]` on a parsed JSON object: JavaScript's
`JSON.parse` keeps the last of duplicate keys, so the last binding wins. -/
def JvFields.lookupLast : JvFields → String → Option Jv
  | .nil, _ => none
  | .cons key v tl, k =>
    match JvFields.lookupLast tl k with
    | some r => some r
    | none => if key = k then some v else none

/-- Property access `data?.k` as used by the `beforeError` hook: on an
object it reads the property, on every other JSON value (null, booleans,
numbers, strings, arrays) reading `code`/`message`/`details` yields
`undefined`, modelled as `none`. -/
def jsProp : Jv → String → Option Jv
  | .obj fs, k => fs.lookupLast k
  | _, _ => none

/-- Truthiness of a JSON-originated JavaScript value, as used by
`data.details || {}`.  Falsy values among JSON values: `null`, `false`,
`0`, the empty string. -/
def jsTruthy : Jv → Bool
  | .null => false
  | .bool b => b
  | .num q => !(q = 0 : Bool)
  | .str s => !(s = "" : Bool)
  | .date _ => true
  | .arr _ => true
  | .obj _ => true

/-! ### Reviver key sets (frontend/src/lib/revivers.ts) -/

/-- Key names revived to `Date`, from `DATE_KEYS` in
`frontend/src/lib/revivers.ts`. -/
def DATE_KEYS : List String :=
  ["createdAt", "lastLogin", "updatedAt", "timestamp", "nextDividendDate"]

/-- Key names revived to numbers, from `DECIMAL_KEYS` in
`frontend/src/lib/revivers.ts`. -/
def DECIMAL_KEYS : List String :=
  ["price", "dividendYield", "marketCap", "peRatio", "eps",
   "atrStopLossMultiplePercentage", "atrProfitMultiplePercentage",
   "openingPriceMultiplePercentage", "size", "openLevel", "currentLevel",
   "profitLoss", "profitLossPercentage", "maxPositionSize", "entryLevel",
   "stopLevel", "profitLevel"]

/-! ### The regular expression tests of revivers.ts -/

/-- Test of the regular expression `^\d{4}-\d{2}-\d{2}T` from
`revivers.ts` (unanchored at the right: any suffix after `T`). -/
def dateRegexTest (s : String) : Bool :=
  match s.data with
  | y1 :: y2 :: y3 :: y4 :: '-' :: m1 :: m2 :: '-' :: d1 :: d2 :: 'T' :: _ =>
    y1.isDigit && y2.isDigit && y3.isDigit && y4.isDigit &&
    m1.isDigit && m2.isDigit && d1.isDigit && d2.isDigit
  | _ => false

/-- Tail of the decimal pattern after its first digit: zero or more
digits, optionally followed by a dot and one or more digits, then end. -/
def decTail : List Char → Bool
  | [] => true
  | '.' :: rest => rest ≠ [] && rest.all Char.isDigit
  | c :: rest => c.isDigit && decTail rest

/-- Test of the regular expression `^-?\d+(\.\d+)?$` from `revivers.ts`. -/
def decimalRegexTest (s : String) : Bool :=
  let l := match s.data with
    | '-' :: t => t
    | t => t
  match l with
  | c :: rest => c.isDigit && decTail rest
  | [] => false

/-! ### Number parsing (ECMAScript parseFloat) -/

/-- Numeric value of a list of ASCII digits read in base 10 (left fold). -/
def digitsToNatAux (acc : Nat) : List Char → Nat
  | [] => acc
  | c :: rest => digitsToNatAux (acc * 10 + (c.toNat - '0'.toNat)) rest

/-- Numeric value of a list of ASCII digits read in base 10. -/
def digitsToNat (l : List Char) : Nat := digitsToNatAux 0 l

/-- Longest prefix of ASCII digits together with the remaining input. -/
def spanDigits : List Char → List Char × List Char
  | [] => ([], [])
  | c :: rest =>
    if c.isDigit then
      let (d, r) := spanDigits rest
      (c :: d, r)
    else ([], c :: rest)

/-- ECMAScript white space and line terminators, as trimmed by
`parseFloat` (`TrimString`): the ASCII members suffice here. -/
def isJsWhitespace (c : Char) : Bool :=
  c = ' ' || c = '\t' || c = '\n' || c = '\r' || c = '\x0b' || c = '\x0c'

/-- Exponent suffix of a decimal literal: `e`/`E`, an optional sign and
one or more digits.  Returns the exponent value, or `0` when the suffix
is absent or incomplete (an incomplete suffix is not part of the longest
parsable prefix and is ignored). -/
def parseExponent (l : List Char) : Int :=
  match l with
  | e :: rest =>
    if e = 'e' || e = 'E' then
      let (sgn, rest') : Int × List Char :=
        match rest with
        | '-' :: t => (-1, t)
        | '+' :: t => (1, t)
        | t => (1, t)
      let (ds, _) := spanDigits rest'
      if ds = [] then 0 else sgn * (digitsToNat ds : Int)
    else 0
  | [] => 0

/-- Magnitude of a decimal literal after the optional sign: the integer
digits, an optional fraction and an optional exponent of the longest
parsable prefix, with `none` when not a single digit is present
(`NaN`). -/
def parseFloatMagnitude (sgn : Int) (l1 : List Char) : Option ℚ :=
  let (ip, l2) := spanDigits l1
  let (fp, l3) : List Char × List Char :=
    match l2 with
    | '.' :: t => spanDigits t
    | t => ([], t)
  if ip = [] ∧ fp = [] then none
  else
    let mant : Int := sgn * (digitsToNat (ip ++ fp) : Int)
    let e : Int := parseExponent l3 - (fp.length : Int)
    if 0 ≤ e then some ((mant * 10 ^ e.toNat : Int) : ℚ)
    else some (mkRat mant (10 ^ (-e).toNat))

/-- Model of ECMAScript `parseFloat`: trim leading white space, read an
optional sign and then the longest decimal-literal prefix, and return
its exact value; `none` models `NaN` (no parsable prefix).  The
`Infinity` literals are not modelled: every call site first checks
`^-?\d+(\.\d+)?$`, which they fail.  The binary rounding of the double
result is abstracted away (exact value). -/
def jsParseFloat (s : String) : Option ℚ :=
  match s.data.dropWhile isJsWhitespace with
  | '-' :: t => parseFloatMagnitude (-1) t
  | '+' :: t => parseFloatMagnitude 1 t
  | t => parseFloatMagnitude 1 t

/-! ### Calendar arithmetic (ECMAScript Date) -/

/-- Proleptic-Gregorian leap year test (ECMAScript `DaysInYear`). -/
def isLeapYear (y : Int) : Bool :=
  (y % 4 = 0 && y % 100 ≠ 0) || y % 400 = 0

/-- Number of days in a month (1-based month). -/
def daysInMonth (y m : Int) : Int :=
  if m = 1 then 31
  else if m = 2 then (if isLeapYear y then 29 else 28)
  else if m = 3 then 31
  else if m = 4 then 30
  else if m = 5 then 31
  else if m = 6 then 30
  else if m = 7 then 31
  else if m = 8 then 31
  else if m = 9 then 30
  else if m = 10 then 31
  else if m = 11 then 30
  else 31

/-- Days since the Unix epoch of a civil date (proleptic Gregorian),
the standard era-based computation; `Int` division is floor division for
the positive literal divisors used here. -/
def daysFromCivil (y m d : Int) : Int :=
  let yy := if m ≤ 2 then y - 1 else y
  let era := yy / 400
  let yoe := yy - era * 400
  let mp := (m + 9) % 12
  let doy := (153 * mp + 2) / 5 + d - 1
  let doe := yoe * 365 + yoe / 4 - yoe / 100 + doy
  era * 146097 + doe - 719468

/-- Year of era (0–399) from day of era (0–146096), the era-local part
of the civil-from-days computation. -/
def yoeFromDoe (doe : Int) : Int :=
  (doe - doe / 1460 + doe / 36524 - doe / 146096) / 365

/-- Civil date (year, month, day) of a days-since-epoch count, inverse of
`daysFromCivil`; this is `YearFromTime`/`MonthFromTime`/`DateFromTime` of
ECMAScript, expressed with the era decomposition. -/
def civilFromDays (z0 : Int) : Int × Int × Int :=
  let z := z0 + 719468
  let era := z / 146097
  let doe := z % 146097
  let yoe := yoeFromDoe doe
  let y := yoe + era * 400
  let doy := doe - (365 * yoe + yoe / 4 - yoe / 100)
  let mp := (5 * doy + 2) / 153
  let d := doy - (153 * mp + 2) / 5 + 1
  let m := if mp < 10 then mp + 3 else mp - 9
  (if m ≤ 2 then y + 1 else y, m, d)

/-- Value of a fixed-width run of ASCII digits, or `none` when a
character is not a digit. -/
def fixedDigits : List Char → Option Nat
  | [] => some 0
  | c :: rest =>
    if c.isDigit then
      match fixedDigits rest with
      | some v => some ((c.toNat - '0'.toNat) * 10 ^ rest.length + v)
      | none => none
    else none

/-- Milliseconds denoted by the fraction digits after the decimal point
of a time (`.sss`): the first three digits, right-padded with zeros;
further digits are ignored (sub-millisecond precision is dropped). -/
def fracToMs (ds : List Char) : Option Nat :=
  match fixedDigits (ds.take 3) with
  | some v => some (v * 10 ^ (3 - (ds.take 3).length))
  | none => none

/-- Time-zone offset suffix of a date-time string, in minutes east of
UTC: empty (local time, inner `none`), `Z` (UTC), or `±HH:mm`; the outer
`none` means the suffix is malformed and the whole string invalid. -/
def parseTzOffset : List Char → Option (Option Int)
  | [] => some none
  | ['Z'] => some (some 0)
  | sgn :: h1 :: h2 :: ':' :: m1 :: m2 :: [] =>
    if (sgn = '+' || sgn = '-') && h1.isDigit && h2.isDigit &&
        m1.isDigit && m2.isDigit then
      let h := (h1.toNat - '0'.toNat) * 10 + (h2.toNat - '0'.toNat)
      let m := (m1.toNat - '0'.toNat) * 10 + (m2.toNat - '0'.toNat)
      if h ≤ 23 && m ≤ 59 then
        some (some ((if sgn = '-' then -1 else 1) * ((h : Int) * 60 + m)))
      else none
    else none
  | _ => none

/-- Seconds-and-fraction part of a time (`:ss` then optionally `.s+`),
returning seconds, milliseconds and the remaining input; when the input
does not start with `:` there is no seconds part. -/
def parseSecondsPart : List Char → Option (Nat × Nat × List Char)
  | ':' :: s1 :: s2 :: rest =>
    if s1.isDigit && s2.isDigit then
      let sec := (s1.toNat - '0'.toNat) * 10 + (s2.toNat - '0'.toNat)
      match rest with
      | '.' :: ds =>
        let (fd, r) := spanDigits ds
        if fd = [] then none
        else
          match fracToMs fd with
          | some ms => some (sec, ms, r)
          | none => none
      | r => some (sec, 0, r)
    else none
  | ':' :: _ => none
  | l => some (0, 0, l)

/-- Time part of a Date Time String after the `T`: `HH:mm`, an optional
seconds part and an optional zone offset, with the range checks of the
ECMAScript Date Time String Format (`24` as hour only for exactly
midnight).  Result: hours, minutes, seconds, milliseconds, offset. -/
def parseTimePart (l : List Char) : Option (Nat × Nat × Nat × Nat × Option Int) :=
  match l with
  | h1 :: h2 :: ':' :: m1 :: m2 :: rest =>
    if h1.isDigit && h2.isDigit && m1.isDigit && m2.isDigit then
      let h := (h1.toNat - '0'.toNat) * 10 + (h2.toNat - '0'.toNat)
      let mi := (m1.toNat - '0'.toNat) * 10 + (m2.toNat - '0'.toNat)
      match parseSecondsPart rest with
      | some (sec, ms, rest') =>
        match parseTzOffset rest' with
        | some off =>
          if mi ≤ 59 && sec ≤ 59 &&
              (h ≤ 23 || (h = 24 && mi = 0 && sec = 0 && ms = 0)) then
            some (h, mi, sec, ms, off)
          else none
        | none => none
      | none => none
    else none
  | _ => none

/-- Largest time value accepted by ECMAScript `Date` (`8.64e15` ms). -/
def maxTimeValue : Nat := 8640000000000000

/-- Model of `new Date(s)` for strings of shape `YYYY-MM-DDT…`, the only
shape on which `revivers.ts` constructs a date: the ECMAScript Date Time
String Format date-time forms.  `tzOffsetMin` is the host time-zone
offset in the `getTimezoneOffset` convention (minutes to add to a local
wall-clock reading to reach UTC), used when the string has no zone
suffix.  `none` models an invalid date (`isNaN(date.getTime())`);
strings outside the modelled format are implementation-defined legacy
parses in a real engine and are treated as invalid here. -/
def jsDateParse (tzOffsetMin : Int) (s : String) : Option Int :=
  match s.data with
  | y1 :: y2 :: y3 :: y4 :: '-' :: mo1 :: mo2 :: '-' :: d1 :: d2 :: 'T' :: rest =>
    if y1.isDigit && y2.isDigit && y3.isDigit && y4.isDigit &&
        mo1.isDigit && mo2.isDigit && d1.isDigit && d2.isDigit then
      let y : Int := ((y1.toNat - '0'.toNat) * 1000 + (y2.toNat - '0'.toNat) * 100 +
        (y3.toNat - '0'.toNat) * 10 + (y4.toNat - '0'.toNat) : Nat)
      let mo : Int := ((mo1.toNat - '0'.toNat) * 10 + (mo2.toNat - '0'.toNat) : Nat)
      let dy : Int := ((d1.toNat - '0'.toNat) * 10 + (d2.toNat - '0'.toNat) : Nat)
      if 1 ≤ mo && mo ≤ 12 && 1 ≤ dy && dy ≤ daysInMonth y mo then
        match parseTimePart rest with
        | some (h, mi, sec, ms, offOpt) =>
          let offMs : Int :=
            match offOpt with
            | some off => -off * 60000
            | none => tzOffsetMin * 60000
          let t := daysFromCivil y mo dy * 86400000 +
            (((h : Int) * 3600 + (mi : Int) * 60 + (sec : Int)) * 1000 + (ms : Int)) + offMs
          if t.natAbs ≤ maxTimeValue then some t else none
        | none => none
      else none
    else none
  | _ => none

/-- Decimal rendering of a natural number left-padded with zeros to a
given width. -/
def padNat (w : Nat) (n : Nat) : String :=
  let s := toString n
  String.mk (List.replicate (w - s.length) '0') ++ s

/-- Model of `Date.prototype.toISOString`: UTC components rendered as
`YYYY-MM-DDTHH:mm:ss.sssZ`, with the expanded-year forms `+YYYYYY` /
`-YYYYYY` outside `[0, 9999]`. -/
def toISOString (t : Int) : String :=
  let day := t / 86400000
  let msOfDay := t % 86400000
  let ymd := civilFromDays day
  let y := ymd.1
  let yearStr :=
    if 0 ≤ y && y ≤ 9999 then padNat 4 y.toNat
    else if y < 0 then "-" ++ padNat 6 (-y).toNat
    else "+" ++ padNat 6 y.toNat
  yearStr ++ "-" ++ padNat 2 ymd.2.1.toNat ++ "-" ++ padNat 2 ymd.2.2.toNat ++
    "T" ++ padNat 2 (msOfDay / 3600000).toNat ++ ":" ++
    padNat 2 (msOfDay % 3600000 / 60000).toNat ++ ":" ++
    padNat 2 (msOfDay % 60000 / 1000).toNat ++ "." ++
    padNat 3 (msOfDay % 1000).toNat ++ "Z"

/-! ### The reviver (frontend/src/lib/revivers.ts) -/

/-- The `revivers` function of `frontend/src/lib/revivers.ts`.  The two
`typeof value === "string"` conjuncts are the outer `.str` match; on any
non-string value both `isDate` and `isDecimal` are false and the value is
returned unchanged.  `tz` is the host time-zone offset used by
`new Date(value)` on zone-less strings. -/
def revivers (tz : Int) (_key : String) (value : Jv) : Jv :=
  match value with
  | .str s =>
    let isDate := DATE_KEYS.contains _key && dateRegexTest s
    let isDecimal := DECIMAL_KEYS.contains _key && decimalRegexTest s
    if isDate then
      match jsDateParse tz s with
      | none => value
      | some ms => .date ms
    else if isDecimal then
      match jsParseFloat s with
      | none => value
      | some q => .num q
    else value
  | v => v

mutual
/-- Walk of `JSON.parse(text, revivers)` over an already-parsed tree: the
reviver is applied bottom-up to every object member under its key and to
every array element under its decimal index, as in `InternalizeJSONProperty`. -/
def reviveVal (tz : Int) : Jv → Jv
  | .arr xs => .arr (reviveList tz 0 xs)
  | .obj fs => .obj (reviveFields tz fs)
  | v => v
/-- Array part of the reviver walk; `i` is the element index. -/
def reviveList (tz : Int) (i : Nat) : JvList → JvList
  | .nil => .nil
  | .cons x xs => .cons (revivers tz (toString i) (reviveVal tz x)) (reviveList tz (i + 1) xs)
/-- Object part of the reviver walk. -/
def reviveFields (tz : Int) : JvFields → JvFields
  | .nil => .nil
  | .cons k v tl => .cons k (revivers tz k (reviveVal tz v)) (reviveFields tz tl)
end

/-- Model of ky's `parseJson` option `(text) => JSON.parse(text, revivers)`
applied to a body whose plain parse is `j`: the bottom-up walk followed by
the root call `revivers("", root)`. -/
def parseJsonWithRevivers (tz : Int) (j : Jv) : Jv :=
  revivers tz "" (reviveVal tz j)

mutual
/-- Tree-level effect of `JSON.parse(JSON.stringify v)` (no reviver):
`Date` values serialize through `Date.prototype.toJSON` to their ISO
string and reparse as strings; everything else is preserved (numbers are
exact in this model). -/
def jsonRoundTrip : Jv → Jv
  | .date ms => .str (toISOString ms)
  | .arr xs => .arr (jsonRoundTripList xs)
  | .obj fs => .obj (jsonRoundTripFields fs)
  | v => v
/-- Array part of `jsonRoundTrip`. -/
def jsonRoundTripList : JvList → JvList
  | .nil => .nil
  | .cons x xs => .cons (jsonRoundTrip x) (jsonRoundTripList xs)
/-- Object part of `jsonRoundTrip`. -/
def jsonRoundTripFields : JvFields → JvFields
  | .nil => .nil
  | .cons k v tl => .cons k (jsonRoundTrip v) (jsonRoundTripFields tl)
end

/-! ### Key case conversion (npm `snake-case`/`no-case` and `camelcase`) -/

/-- Word separator marker used internally by `no-case` (`\0`). -/
def marker : Char := '\x00'

/-- First split pass of `no-case`: the global replace
`/([a-z0-9])([A-Z])/g` with `$1\0$2`.  The second character of a match
cannot begin another match, so a sliding two-character scan is exact. -/
def noCaseSplit1 : List Char → List Char
  | a :: b :: rest =>
    if (a.isLower || a.isDigit) && b.isUpper then
      a :: marker :: noCaseSplit1 (b :: rest)
    else a :: noCaseSplit1 (b :: rest)
  | l => l

/-- Second split pass of `no-case`: the global replace
`/([A-Z])([A-Z][a-z])/g` with `$1\0$2` over a three-character window. -/
def noCaseSplit2 : List Char → List Char
  | a :: b :: c :: rest =>
    if a.isUpper && b.isUpper && c.isLower then
      a :: marker :: noCaseSplit2 (b :: c :: rest)
    else a :: noCaseSplit2 (b :: c :: rest)
  | l => l

/-- ASCII letter or digit: the characters kept by the `no-case` strip
regular expression `/[^A-Z0-9]+/gi` (everything else becomes a word
boundary). -/
def isWordChar (c : Char) : Bool := c.isAlpha || c.isDigit

/-- Extension of the current (head) word by one character. -/
def addToHead (c : Char) : List (List Char) → List (List Char)
  | w :: ws => (c :: w) :: ws
  | [] => [[c]]

/-- Maximal alphanumeric words of a character list, in order: the result
of stripping every non-alphanumeric run to a single boundary and
splitting there, dropping empty words (the leading/trailing trim of
`no-case`). -/
def wordsOf : List Char → List (List Char)
  | [] => []
  | [c] => if isWordChar c then [[c]] else []
  | c :: r :: rest =>
    if isWordChar c then
      if isWordChar r then addToHead c (wordsOf (r :: rest))
      else [c] :: wordsOf (r :: rest)
    else wordsOf (r :: rest)

/-- Join of word pieces with the `_` delimiter (the `.join(delimiter)`
step of `no-case`). -/
def joinUnderscore : List (List Char) → List Char
  | [] => []
  | [w] => w
  | w :: ws => w ++ '_' :: joinUnderscore ws

/-- Key transform of the npm `snakecase-keys` package: `snake-case`,
which is `no-case` with delimiter `_` — split on lower/digit-to-upper
and acronym-to-word boundaries, strip non-alphanumerics, lowercase every
word and join with underscores. -/
def snakeCaseKey (s : String) : String :=
  let pieces := wordsOf (noCaseSplit2 (noCaseSplit1 s.data))
  String.mk (joinUnderscore (pieces.map (List.map Char.toLower)))

/-- Camel-boundary preservation step of npm `camelcase` (its
`preserveCamelCase` helper), run only on inputs containing an upper-case
letter: inserts `-` between a cased-lower letter and an upper-case
letter, and before the last letter of an upper-case run followed by a
cased-lower letter.  The stateful in-place loop of the source is
equivalent to this three-character window scan. -/
def preserveCamel : List Char → List Char
  | a :: b :: c :: rest =>
    if a.isLower && b.isUpper then a :: '-' :: preserveCamel (b :: c :: rest)
    else if a.isUpper && b.isUpper && c.isLower then
      a :: '-' :: preserveCamel (b :: c :: rest)
    else a :: preserveCamel (b :: c :: rest)
  | [a, b] => if a.isLower && b.isUpper then [a, '-', b] else [a, b]
  | l => l

/-- Separator characters of npm `camelcase` (`[_.\- ]`). -/
def isCamelSep (c : Char) : Bool := c = '_' || c = '.' || c = '-' || c = ' '

/-- Identifier characters of npm `camelcase` (`[\p{Alpha}\p{N}_]`),
restricted to ASCII. -/
def isIdentChar (c : Char) : Bool := c.isAlpha || c.isDigit || c = '_'

/-- First post-processing pass of npm `camelcase`: the global replace
`/[_.\- ]+([\p{Alpha}\p{N}_]|$)/gu` that drops each separator run and
upper-cases the following identifier character (or nothing at end of
input).  A separator run followed by a non-identifier, non-separator
character is kept verbatim (the regex backtracking corner on exotic
punctuation is not reachable from the alphanumeric-and-underscore keys
of this pipeline). -/
def camelPass1Go (seps : List Char) : List Char → List Char
  | [] => []
  | c :: rest =>
    if isCamelSep c then camelPass1Go (c :: seps) rest
    else if seps.isEmpty then c :: camelPass1Go [] rest
    else if isIdentChar c then c.toUpper :: camelPass1Go [] rest
    else seps.reverse ++ c :: camelPass1Go [] rest

/-- Entry point of the first post-processing pass; `camelPass1Go` carries
the reversed run of separators read so far. -/
def camelPass1 (l : List Char) : List Char := camelPass1Go [] l

/-- Second post-processing pass of npm `camelcase`: the global replace
`/\d+([\p{Alpha}\p{N}_]|$)/gu` that upper-cases each maximal digit run
together with its following identifier character; digits are unchanged
by upper-casing, so the effect is to upper-case the first character
after each digit run. -/
def camelPass2 : List Char → List Char
  | [] => []
  | [c] => [c]
  | c :: d :: rest =>
    if c.isDigit then
      if d.isDigit then c :: camelPass2 (d :: rest)
      else if isIdentChar d then c :: d.toUpper :: camelPass2 rest
      else c :: camelPass2 (d :: rest)
    else c :: camelPass2 (d :: rest)

/-- Upper-case letter test over a whole list, the
`input !== input.toLowerCase()` check of `camelcase` (ASCII scope). -/
def hasUpperChar (l : List Char) : Bool := l.any Char.isUpper

/-- ECMAScript `String.prototype.trim` over the ASCII white space set. -/
def jsTrim (l : List Char) : List Char :=
  ((l.dropWhile isJsWhitespace).reverse.dropWhile isJsWhitespace).reverse

/-- Key transform of the npm `camelcase-keys` package: `camelcase` with
default options — trim; empty and single-character fast paths; boundary
preservation when the input has an upper-case letter; strip leading
separators; lowercase; then the two post-processing passes. -/
def camelCaseKey (s : String) : String :=
  let cs := jsTrim s.data
  if cs.length = 0 then ""
  else if cs.length = 1 then String.mk (cs.map Char.toLower)
  else
    let cs1 := if hasUpperChar cs then preserveCamel cs else cs
    let cs2 := cs1.dropWhile isCamelSep
    let cs3 := cs2.map Char.toLower
    String.mk (camelPass2 (camelPass1 cs3))

mutual
/-- Deep key-renaming walk shared by `camelcase-keys` and
`snakecase-keys` with `{deep: true}`: every object key is renamed and
children are walked; arrays are walked element-wise; non-container
values (including `Date` objects, which both packages exclude from
recursion) pass through. -/
def mapKeysVal (f : String → String) : Jv → Jv
  | .arr xs => .arr (mapKeysList f xs)
  | .obj fs => .obj (mapKeysFields f fs)
  | v => v
/-- Array part of the deep key-renaming walk. -/
def mapKeysList (f : String → String) : JvList → JvList
  | .nil => .nil
  | .cons x xs => .cons (mapKeysVal f x) (mapKeysList f xs)
/-- Object part of the deep key-renaming walk. -/
def mapKeysFields (f : String → String) : JvFields → JvFields
  | .nil => .nil
  | .cons k v tl => .cons (f k) (mapKeysVal f v) (mapKeysFields f tl)
end

/-- The npm call `camelcaseKeys(v, { deep: true })`. -/
def camelcaseKeysDeep (v : Jv) : Jv := mapKeysVal camelCaseKey v

/-- The npm call `snakecaseKeys(v, { deep: true })`. -/
def snakecaseKeysDeep (v : Jv) : Jv := mapKeysVal snakeCaseKey v

/-! ### Requests, responses and errors (frontend/src/api/config.ts) -/

/-- Request identity as far as the pipeline observes it. -/
structure RequestInfo where
  url : String
  deriving DecidableEq, Repr

/-- Response as the pipeline observes it: HTTP status, whether the
`Content-Type` header contains `application/json`, and the plain
(reviver-free) JSON parse of the body text — `none` when the body text
is not valid JSON, in which case every `.json()` reading of it throws. -/
structure Resp where
  status : Nat
  jsonContentType : Bool
  body : Option Jv
  deriving DecidableEq, Repr

/-- Success range test `response.ok` (status 200–299). -/
def respOk (r : Resp) : Bool := 200 ≤ r.status && r.status ≤ 299

/-- Modelled from the spec: the `APIError` class of
`frontend/src/lib/errors.ts` is imported by `config.ts` but its source
file is not among the repository sources; per the specification a
Structured API Error carries the originating response and request, a
machine-readable `code`, a human-readable `message` and a `details`
mapping, each exposed exactly as passed to the constructor. -/
structure APIErrorData where
  response : Resp
  request : RequestInfo
  code : String
  message : String
  details : Jv
  deriving DecidableEq, Repr

/-- Error that a failed call settles with: ky's generic `HTTPError`
(carrying its response and request) or the structured `APIError`. -/
inductive KyError where
  | http (response : Resp) (request : RequestInfo)
  | api (e : APIErrorData)
  deriving DecidableEq, Repr

/-- Value of `data.details || {}` in the `beforeError` hook: the
`details` property when present and truthy, the empty object otherwise
(also when `details` is present but falsy, e.g. `null`). -/
def apiDetails (data : Jv) : Jv :=
  match jsProp data "details" with
  | some d => if jsTruthy d then d else .obj .nil
  | none => .obj .nil

/-- The `beforeError` hook of `config.ts`.  `error.response.clone().json()`
is a plain parse (the clone has the native `json`, not ky's decorated
one): it yields `resp.body` or throws when the body is not JSON, in
which case the `catch` returns the original error.  When `data?.code`
and `data?.message` are both strings an `APIError` is constructed with
`data.details || {}`; otherwise the original error is returned. -/
def beforeErrorHook (error : KyError) : KyError :=
  match error with
  | .http resp req =>
    match resp.body with
    | none => error
    | some data =>
      match jsProp data "code", jsProp data "message" with
      | some (.str c), some (.str m) => .api ⟨resp, req, c, m, apiDetails data⟩
      | _, _ => error
  | e => e

/-! ### The afterResponse hook, per-request view -/

/-- Outcome of the `refreshToken()` call of
`frontend/src/lib/authentication.ts` (`api.post("auth/token")`): it
either fulfills or rejects with that inner call's own error. -/
inductive RefreshOutcome where
  | ok
  | failed (e : KyError)
  deriving DecidableEq, Repr

/-- Observable steps of processing one response, in execution order. -/
inductive StepEv where
  | refreshChecked
  | refreshIssued
  | refreshSettled (ok : Bool)
  | caseConverted
  | errorNormalized
  | retried
  | promiseSettled
  deriving DecidableEq, Repr

/-- Settlement of the caller's promise. -/
inductive CallOutcome where
  | resolved (resp : Resp)
  | rejected (e : KyError)
  deriving DecidableEq, Repr

/-- Result of processing one response: the ordered step trace, the
refresh-flag value afterwards, and how the caller's promise settles. -/
structure ProcessResult where
  trace : List StepEv
  flagAfter : Bool
  outcome : CallOutcome
  deriving DecidableEq, Repr

/-- Body rewrite of the `afterResponse` hook's JSON branch: ky hands the
hook a response decorated with the custom `parseJson`, so
`await response.json()` parses with the revivers; the result is passed
through `camelcaseKeys(…, {deep: true})`, re-serialized with
`JSON.stringify` (dates back to ISO strings) and wrapped in a new
response whose plain body parse is the returned tree. -/
def hookBodyRewrite (tz : Int) (j : Jv) : Jv :=
  jsonRoundTrip (camelcaseKeysDeep (parseJsonWithRevivers tz j))

/-- Per-request processing of a settled response, from the
`afterResponse` hook of `config.ts` (lines 36–64) followed by ky's
`throwHttpErrors`/`beforeError` stage: first the 401 check — when the
status is 401 and the module flag is clear, the flag is set, the refresh
call is issued and awaited, and the flag is cleared in `finally`; a
rejection of the refresh call propagates out of the hook and rejects the
caller's promise with the refresh call's own error.  Then the JSON body
transcode (a parse failure is caught and the response returned
unchanged), and finally, for a non-2xx status, error normalization; the
promise settles last. -/
def processResponse (tz : Int) (flag : Bool) (req : RequestInfo)
    (r : Resp) (refresh : RefreshOutcome) : ProcessResult :=
  let refreshPhase : List StepEv × Bool × Option KyError :=
    if r.status = 401 && !flag then
      match refresh with
      | .ok => ([.refreshChecked, .refreshIssued, .refreshSettled true], false, none)
      | .failed e => ([.refreshChecked, .refreshIssued, .refreshSettled false], false, some e)
    else ([.refreshChecked], flag, none)
  match refreshPhase with
  | (evs, flag1, some e) =>
    ⟨evs ++ [.promiseSettled], flag1, .rejected e⟩
  | (evs, flag1, none) =>
    let convertPhase : List StepEv × Option Jv :=
      if r.jsonContentType then
        match r.body with
        | some j => ([.caseConverted], some (hookBodyRewrite tz j))
        | none => ([.caseConverted], none)
      else ([], r.body)
    let resp1 : Resp := ⟨r.status, r.jsonContentType, convertPhase.2⟩
    if respOk r then
      ⟨evs ++ convertPhase.1 ++ [.promiseSettled], flag1, .resolved resp1⟩
    else
      ⟨evs ++ convertPhase.1 ++ [.errorNormalized, .promiseSettled], flag1,
        .rejected (beforeErrorHook (.http resp1 req))⟩

/-- Reading the final response in caller code (`await api.get(…).json()`):
ky's decorated `json` applies `parseJson`, that is the revivers, to the
delivered body. -/
def callerJson (tz : Int) (body : Jv) : Jv := parseJsonWithRevivers tz body

/-! ### The refresh interceptor as an event-loop transition system -/

/-- Shared interceptor state: the module-level `isRefreshing` flag of
`config.ts`, the number of outstanding `refreshToken()` calls, and a
counter of refresh calls ever issued. -/
structure RefreshSt where
  isRefreshing : Bool
  inFlight : Nat
  issued : Nat
  deriving DecidableEq, Repr

/-- Event-loop events touching the shared state: a 401 response's hook
running its synchronous prefix (the `status === 401 && !isRefreshing`
check, the flag set and the dispatch of `refreshToken()` — no suspension
point separates them), any other response's hook (which does not touch
the state), and the settling continuation of a refresh call (the
`finally` clearing the flag).  Responses to the refresh request itself
are ordinary `resp401`/`respOther` events: the refresh call goes through
the same client and its hook runs before the call settles. -/
inductive LoopEv where
  | resp401
  | respOther
  | settle
  deriving DecidableEq, Repr

/-- One atomic event-loop step; `none` when the event is not enabled
(settling with no refresh outstanding). -/
def loopStep (s : RefreshSt) : LoopEv → Option RefreshSt
  | .resp401 =>
    if s.isRefreshing then some s
    else some ⟨true, s.inFlight + 1, s.issued + 1⟩
  | .respOther => some s
  | .settle =>
    if s.inFlight = 0 then none
    else some ⟨false, s.inFlight - 1, s.issued⟩

/-- Initial state: `let isRefreshing = false`, nothing outstanding. -/
def initSt : RefreshSt := ⟨false, 0, 0⟩

/-- Run of a finite event sequence from a state. -/
def runEvents : RefreshSt → List LoopEv → Option RefreshSt
  | s, [] => some s
  | s, e :: es =>
    match loopStep s e with
    | some s1 => runEvents s1 es
    | none => none

/-- States reachable from the initial state by enabled steps. -/
inductive Reachable : RefreshSt → Prop
  | init : Reachable initSt
  | step (s s1 : RefreshSt) (e : LoopEv) :
      Reachable s → loopStep s e = some s1 → Reachable s1

/-! ### Derived notions used by the stated properties -/

/-- Date components printed by `toISOString`: the `civilFromDays` call
on the UTC day number is exactly the year–month–day that `toISOString`
renders into its first ten characters. -/
def isoDate (t : Int) : Int × Int × Int := civilFromDays (t / 86400000)

/-- Identifier-style key in the sense of the specification:
`[a-zA-Z][a-zA-Z0-9]*`. -/
def isIdentStyleKey (s : String) : Bool :=
  match s.data with
  | c :: rest => c.isAlpha && rest.all (fun x => x.isAlpha || x.isDigit)
  | [] => false

/-- Adjacency conditions of the round-trip-safe keys: all characters
ASCII alphanumeric, no two adjacent upper-case letters, and any letter
directly after a digit upper-case. -/
def safeTail : List Char → Bool
  | [] => true
  | [c] => c.isAlpha || c.isDigit
  | a :: b :: rest =>
    (a.isAlpha || a.isDigit) && !(a.isUpper && b.isUpper) &&
    !(a.isDigit && b.isAlpha && !b.isUpper) && safeTail (b :: rest)

/-- Keys on which the snake-then-camel round trip is the identity:
identifier-style keys that begin with a lower-case letter, contain no
two adjacent upper-case letters, and in which any letter immediately
following a digit is upper-case. -/
def camelRoundSafe (s : String) : Bool :=
  match s.data with
  | c :: rest => c.isLower && safeTail (c :: rest)
  | [] => false

/-- Boundary-marker insertion performed by the `no-case` split passes on
a no-consecutive-uppercase alphanumeric key: one marker before every
upper-case letter. -/
def marked : List Char → List Char
  | a :: b :: rest =>
    if b.isUpper then a :: marker :: marked (b :: rest)
    else a :: marked (b :: rest)
  | l => l

/-- Test for the absence of two adjacent upper-case characters. -/
def noUU : List Char → Bool
  | a :: b :: rest => !(a.isUpper && b.isUpper) && noUU (b :: rest)
  | _ => true

/-- Continuation of the canonical snake form after the head character:
every later character lowered, with an underscore before each
originally upper-case letter. -/
def jfTail : List Char → List Char
  | _ :: d :: rest =>
    if d.isUpper then '_' :: d.toLower :: jfTail (d :: rest)
    else d.toLower :: jfTail (d :: rest)
  | _ => []

/-- Canonical snake form of an alphanumeric key: all characters lowered,
an underscore before each originally upper-case letter. -/
def joinForm : List Char → List Char
  | [] => []
  | c :: rest => c.toLower :: jfTail (c :: rest)

mutual
/-- Predicate holding when every object key of a value, recursively,
satisfies `p`. -/
def allKeysVal (p : String → Bool) : Jv → Bool
  | .arr xs => allKeysList p xs
  | .obj fs => allKeysFields p fs
  | _ => true
/-- Array part of `allKeysVal`. -/
def allKeysList (p : String → Bool) : JvList → Bool
  | .nil => true
  | .cons x xs => allKeysVal p x && allKeysList p xs
/-- Object part of `allKeysVal`. -/
def allKeysFields (p : String → Bool) : JvFields → Bool
  | .nil => true
  | .cons k v tl => p k && allKeysVal p v && allKeysFields p tl
end

/-- Underscore test used to characterize wire-format (snake_case)
names. -/
def hasUnderscore (s : String) : Bool := s.data.contains '_'

/-- Implemented response-body pipeline for one request, as composed in
`config.ts` under ky's hook semantics: the `afterResponse` hook parses
the raw body with the decorated (reviver-applying) `json`, camelizes,
re-serializes; the caller's final `.json()` parses the rewritten body
with the revivers again. -/
def implementedBodyPipeline (tz : Int) (rawBody : Jv) : Jv :=
  callerJson tz (hookBodyRewrite tz rawBody)

/-- Modelled from the spec side of claim C10 (for comparison only): the
pipeline as the claim describes it — the hook rewrites the keys of the
plain parsed body from snake_case to camelCase without applying any
reviver, and only the final parse of the rewritten body applies the
reviver. -/
def claimedBodyPipeline (tz : Int) (rawBody : Jv) : Jv :=
  parseJsonWithRevivers tz (camelcaseKeysDeep rawBody)

/-! ## Theorems -/

/-- Inductive invariant of the interceptor transition system: at most
one refresh call is ever outstanding, and the `isRefreshing` flag is set
exactly while one is. -/
theorem reachable_invariant (s : RefreshSt) (h : Reachable s) :
    s.inFlight ≤ 1 ∧ (s.isRefreshing = true ↔ s.inFlight = 1) := by
  induction h with
  | init => simp [initSt]
  | step s s1 e hr hstep ih =>
    cases e
    · simp only [loopStep] at hstep
      by_cases hf : s.isRefreshing
      · simp [hf] at hstep
        subst hstep
        simpa [hf] using ih
      · simp [hf] at hstep
        subst hstep
        simp
        rcases ih with ⟨i1, i2⟩
        have hne : s.inFlight ≠ 1 := fun hh => hf (i2.mpr hh)
        omega
    · simp only [loopStep] at hstep
      injection hstep with h1
      subst h1
      exact ih
    · simp only [loopStep] at hstep
      by_cases h0 : s.inFlight = 0
      · simp [h0] at hstep
      · simp [h0] at hstep
        subst hstep
        simp
        omega

/-- C1: in every reachable state of the event-loop transition system of
the refresh interceptor, at most one token-refresh request is in flight;
a 401 observed while the flag is set (including one produced by the
refresh request itself, which runs through the same hook before the
refresh settles) leaves the state unchanged and issues no refresh; and
two 401 observations arriving before the first refresh settles issue
exactly one refresh call. -/
theorem refresh_mutual_exclusion (s : RefreshSt) (h : Reachable s) :
    s.inFlight ≤ 1 ∧
    (s.isRefreshing = true → loopStep s .resp401 = some s) ∧
    runEvents initSt [.resp401, .resp401] = some ⟨true, 1, 1⟩ := by
  refine ⟨(reachable_invariant s h).1, ?_, by decide⟩
  intro hf
  simp [loopStep, hf]

/-- Witness for C1 at the reachable state reached after one 401: the
invariant and the no-second-refresh property hold there concretely. -/
theorem refresh_mutual_exclusion_witness :
    RefreshSt.inFlight ⟨true, 1, 1⟩ ≤ 1 ∧
    (RefreshSt.isRefreshing ⟨true, 1, 1⟩ = true →
      loopStep ⟨true, 1, 1⟩ .resp401 = some ⟨true, 1, 1⟩) ∧
    runEvents initSt [.resp401, .resp401] = some ⟨true, 1, 1⟩ :=
  refresh_mutual_exclusion ⟨true, 1, 1⟩
    (Reachable.step initSt ⟨true, 1, 1⟩ .resp401 Reachable.init (by decide))

/-- C2: the error normalizer contract of the `beforeError` hook — a
failed response whose body parses as JSON with string-typed `code` and
`message` yields an `APIError` exposing exactly that code and message,
the `data.details || {}` mapping (empty when `details` is absent) and
the original request and response; a non-JSON body, or a missing or
non-string `code` or `message`, returns the original error unmodified
(the hook is a total function: normalization never throws). -/
theorem beforeError_contract (resp : Resp) (req : RequestInfo) :
    (∀ data c m, resp.body = some data →
      jsProp data "code" = some (.str c) →
      jsProp data "message" = some (.str m) →
      beforeErrorHook (.http resp req) = .api ⟨resp, req, c, m, apiDetails data⟩ ∧
        (jsProp data "details" = none → apiDetails data = .obj .nil)) ∧
    (resp.body = none → beforeErrorHook (.http resp req) = .http resp req) ∧
    (∀ data, resp.body = some data →
      ((∀ c, jsProp data "code" ≠ some (.str c)) ∨
       (∀ m, jsProp data "message" ≠ some (.str m))) →
      beforeErrorHook (.http resp req) = .http resp req) := by
  refine ⟨?_, ?_, ?_⟩
  · intro data c m hb hc hm
    constructor
    · simp [beforeErrorHook, hb, hc, hm]
    · intro hd
      simp [apiDetails, hd]
  · intro hb
    simp [beforeErrorHook, hb]
  · intro data hb hcm
    simp only [beforeErrorHook, hb]
    rcases hcm with hc | hm
    · rcases h1 : jsProp data "code" with _ | v
      · rfl
      · cases v <;> simp_all
    · rcases h1 : jsProp data "code" with _ | v
      · rfl
      · rcases h2 : jsProp data "message" with _ | w
        · cases v <;> rfl
        · cases v <;> cases w <;> simp_all

/-- Witness for C2: the specification's two scenarios — a 404 with body
`{"code":"NOT_FOUND","message":"missing"}` yields an `APIError` with that
code and message and empty details, and a 500 with a non-JSON body
yields the original generic error. -/
theorem beforeError_contract_witness :
    beforeErrorHook
        (.http ⟨404, true,
          some (.obj (.cons "code" (.str "NOT_FOUND")
            (.cons "message" (.str "missing") .nil)))⟩ ⟨"orders"⟩) =
      .api ⟨⟨404, true,
          some (.obj (.cons "code" (.str "NOT_FOUND")
            (.cons "message" (.str "missing") .nil)))⟩, ⟨"orders"⟩,
        "NOT_FOUND", "missing", .obj .nil⟩ ∧
    beforeErrorHook (.http ⟨500, false, none⟩ ⟨"orders"⟩) =
      .http ⟨500, false, none⟩ ⟨"orders"⟩ := by
  constructor
  · have h := (beforeError_contract
      ⟨404, true, some (.obj (.cons "code" (.str "NOT_FOUND")
        (.cons "message" (.str "missing") .nil)))⟩ ⟨"orders"⟩).1
      (.obj (.cons "code" (.str "NOT_FOUND") (.cons "message" (.str "missing") .nil)))
      "NOT_FOUND" "missing" rfl (by decide) (by decide)
    have hd := h.2 (by decide)
    rw [h.1, hd]
  · exact (beforeError_contract ⟨500, false, none⟩ ⟨"orders"⟩).2.1 rfl

/-- Counterexample to C3 as stated: with the flag clear, a 401 response
whose refresh call rejects settles the caller's promise with the refresh
call's own error (here the `auth/token` HTTP error), not with the error
derived from the original 401 response — the `try…finally` around
`await refreshToken()` has no `catch`, so the rejection propagates out
of the `afterResponse` hook. -/
theorem refresh_failure_surfacing_counterexample :
    (processResponse 0 false ⟨"positions"⟩ ⟨401, false, none⟩
        (.failed (.http ⟨401, false, none⟩ ⟨"auth/token"⟩))).outcome =
      .rejected (.http ⟨401, false, none⟩ ⟨"auth/token"⟩) ∧
    (processResponse 0 false ⟨"positions"⟩ ⟨401, false, none⟩
        (.failed (.http ⟨401, false, none⟩ ⟨"auth/token"⟩))).outcome ≠
      .rejected (beforeErrorHook (.http ⟨401, false, none⟩ ⟨"positions"⟩)) := by
  decide

/-- C3 (amended): whenever the refresh call is issued, the
refresh-in-flight flag is cleared when it settles, on success and on
failure alike (the `finally` branch); but when the refresh call fails no
additional recovery is attempted and the caller's promise is rejected
with the refresh call's own error — the original 401 response is not
surfaced in that case. -/
theorem refresh_settlement_amended (tz : Int) (flag : Bool) (req : RequestInfo)
    (r : Resp) (refresh : RefreshOutcome)
    (h401 : r.status = 401) (hflag : flag = false) :
    (processResponse tz flag req r refresh).flagAfter = false ∧
    (∀ e, refresh = .failed e →
      (processResponse tz flag req r refresh).outcome = .rejected e) := by
  subst hflag
  cases refresh with
  | ok =>
    refine ⟨?_, by intro e he; cases he⟩
    simp only [processResponse, h401]
    by_cases hj : r.jsonContentType
    · rcases hb : r.body with _ | j
      · by_cases hok : respOk r <;> simp [hj, hb, hok]
      · by_cases hok : respOk r <;> simp [hj, hb, hok]
    · by_cases hok : respOk r <;> simp [hj, hok]
  | failed e =>
    refine ⟨?_, ?_⟩
    · simp [processResponse, h401]
    · intro e2 he
      injection he with h1
      subst h1
      simp [processResponse, h401]

/-- Witness for C3 (amended) at a concrete failed refresh: the flag ends
clear and the outcome is the refresh call's error. -/
theorem refresh_settlement_amended_witness :
    (processResponse 0 false ⟨"positions"⟩ ⟨401, false, none⟩
        (.failed (.http ⟨503, false, none⟩ ⟨"auth/token"⟩))).flagAfter = false ∧
    (∀ e, RefreshOutcome.failed (.http ⟨503, false, none⟩ ⟨"auth/token"⟩) = .failed e →
      (processResponse 0 false ⟨"positions"⟩ ⟨401, false, none⟩
        (.failed (.http ⟨503, false, none⟩ ⟨"auth/token"⟩))).outcome = .rejected e) :=
  refresh_settlement_amended 0 false ⟨"positions"⟩ ⟨401, false, none⟩
    (.failed (.http ⟨503, false, none⟩ ⟨"auth/token"⟩)) rfl rfl

/-- Counterexample to C4 as stated: for a 401 JSON response with the
flag clear and a succeeding refresh, the hook awaits the refresh, so the
caller's promise settles after the refresh call settles, not before —
the full trace shows `promiseSettled` strictly after `refreshSettled`. -/
theorem nonblocking_delivery_counterexample :
    (processResponse 0 false ⟨"positions"⟩ ⟨401, true, some (.obj .nil)⟩ .ok).trace =
      [.refreshChecked, .refreshIssued, .refreshSettled true, .caseConverted,
       .errorNormalized, .promiseSettled] ∧
    ¬ ((processResponse 0 false ⟨"positions"⟩ ⟨401, true, some (.obj .nil)⟩
          .ok).trace.indexOf .promiseSettled <
        (processResponse 0 false ⟨"positions"⟩ ⟨401, true, some (.obj .nil)⟩
          .ok).trace.indexOf (.refreshSettled true)) := by
  decide

/-- C4 (amended): for every 401 response observed with the flag clear,
the refresh is issued and awaited inside the `afterResponse` hook — the
caller's promise settles only after the refresh call settles; and for
every response whatsoever the interceptor neither retries nor queues the
original request. -/
theorem refresh_blocking_amended (tz : Int) (flag : Bool) (req : RequestInfo)
    (r : Resp) (refresh : RefreshOutcome)
    (h401 : r.status = 401) (hflag : flag = false) :
    (∃ b rest, (processResponse tz flag req r refresh).trace =
      .refreshChecked :: .refreshIssued :: .refreshSettled b :: rest ∧
      rest.getLast? = some .promiseSettled) ∧
    (∀ (flag2 : Bool) (r2 : Resp) (refresh2 : RefreshOutcome),
      StepEv.retried ∉ (processResponse tz flag2 req r2 refresh2).trace) := by
  constructor
  · subst hflag
    cases refresh with
    | ok =>
      refine ⟨true, ?_⟩
      simp only [processResponse, h401]
      by_cases hj : r.jsonContentType
      · rcases hb : r.body with _ | j
        · by_cases hok : respOk r <;> simp [hj, hb, hok]
        · by_cases hok : respOk r <;> simp [hj, hb, hok]
      · by_cases hok : respOk r <;> simp [hj, hok]
    | failed e =>
      exact ⟨false, [.promiseSettled], by simp [processResponse, h401], rfl⟩
  · intro flag2 r2 refresh2
    simp only [processResponse]
    by_cases h4 : r2.status = 401 && !flag2
    · cases refresh2 with
      | ok =>
        simp only [h4]
        by_cases hj : r2.jsonContentType
        · rcases hb : r2.body with _ | j
          · by_cases hok : respOk r2 <;> simp [hj, hb, hok]
          · by_cases hok : respOk r2 <;> simp [hj, hb, hok]
        · by_cases hok : respOk r2 <;> simp [hj, hok]
      | failed e => simp [h4]
    · simp only [h4]
      by_cases hj : r2.jsonContentType
      · rcases hb : r2.body with _ | j
        · by_cases hok : respOk r2 <;> simp [hj, hb, hok]
        · by_cases hok : respOk r2 <;> simp [hj, hb, hok]
      · by_cases hok : respOk r2 <;> simp [hj, hok]

/-- Witness for C4 (amended) at a concrete 401 JSON response. -/
theorem refresh_blocking_amended_witness :
    (∃ b rest,
      (processResponse 0 false ⟨"orders"⟩ ⟨401, true, some (.obj .nil)⟩ .ok).trace =
        .refreshChecked :: .refreshIssued :: .refreshSettled b :: rest ∧
        rest.getLast? = some .promiseSettled) ∧
    (∀ (flag2 : Bool) (r2 : Resp) (refresh2 : RefreshOutcome),
      StepEv.retried ∉ (processResponse 0 flag2 ⟨"orders"⟩ r2 refresh2).trace) :=
  refresh_blocking_amended 0 false ⟨"orders"⟩ ⟨401, true, some (.obj .nil)⟩ .ok rfl rfl

/-- Counterexample to C5 as stated: on a failed JSON response the
refresh check runs before the case conversion, not after — the trace of
a 500 JSON response starts with `refreshChecked` and only then performs
`caseConverted`, refuting the claimed conversion-first order. -/
theorem processing_order_counterexample :
    (processResponse 0 false ⟨"instruments"⟩ ⟨500, true, some (.obj .nil)⟩ .ok).trace =
      [.refreshChecked, .caseConverted, .errorNormalized, .promiseSettled] ∧
    ¬ ((processResponse 0 false ⟨"instruments"⟩ ⟨500, true, some (.obj .nil)⟩
          .ok).trace.indexOf .caseConverted <
        (processResponse 0 false ⟨"instruments"⟩ ⟨500, true, some (.obj .nil)⟩
          .ok).trace.indexOf .refreshChecked) := by
  decide

/-- C5 (amended): for every single request the response-processing steps
run in the order refresh check first, then case conversion, then error
normalization, and all of them complete before the caller's promise
settles — the trace is always `refreshChecked`, then refresh events,
then conversion, then normalization, with `promiseSettled` last. -/
theorem processing_order_amended (tz : Int) (flag : Bool) (req : RequestInfo)
    (r : Resp) (refresh : RefreshOutcome) :
    ∃ revs cevs nevs, (processResponse tz flag req r refresh).trace =
      .refreshChecked :: (revs ++ cevs ++ nevs ++ [.promiseSettled]) ∧
      (∀ e ∈ revs, e = .refreshIssued ∨ ∃ b, e = .refreshSettled b) ∧
      (∀ e ∈ cevs, e = .caseConverted) ∧
      (∀ e ∈ nevs, e = .errorNormalized) := by
  simp only [processResponse]
  by_cases h4 : r.status = 401 && !flag
  · cases refresh with
    | ok =>
      simp only [h4]
      by_cases hj : r.jsonContentType
      · rcases hb : r.body with _ | j
        · by_cases hok : respOk r
          · exact ⟨[.refreshIssued, .refreshSettled true], [.caseConverted], [],
              by simp [hj, hb, hok], by simp, by simp, by simp⟩
          · exact ⟨[.refreshIssued, .refreshSettled true], [.caseConverted],
              [.errorNormalized], by simp [hj, hb, hok], by simp, by simp, by simp⟩
        · by_cases hok : respOk r
          · exact ⟨[.refreshIssued, .refreshSettled true], [.caseConverted], [],
              by simp [hj, hb, hok], by simp, by simp, by simp⟩
          · exact ⟨[.refreshIssued, .refreshSettled true], [.caseConverted],
              [.errorNormalized], by simp [hj, hb, hok], by simp, by simp, by simp⟩
      · by_cases hok : respOk r
        · exact ⟨[.refreshIssued, .refreshSettled true], [], [],
            by simp [hj, hok], by simp, by simp, by simp⟩
        · exact ⟨[.refreshIssued, .refreshSettled true], [], [.errorNormalized],
            by simp [hj, hok], by simp, by simp, by simp⟩
    | failed e =>
      exact ⟨[.refreshIssued, .refreshSettled false], [], [],
        by simp [h4], by simp, by simp, by simp⟩
  · simp only [h4]
    by_cases hj : r.jsonContentType
    · rcases hb : r.body with _ | j
      · by_cases hok : respOk r
        · exact ⟨[], [.caseConverted], [], by simp [hj, hb, hok], by simp, by simp, by simp⟩
        · exact ⟨[], [.caseConverted], [.errorNormalized],
            by simp [hj, hb, hok], by simp, by simp, by simp⟩
      · by_cases hok : respOk r
        · exact ⟨[], [.caseConverted], [], by simp [hj, hb, hok], by simp, by simp, by simp⟩
        · exact ⟨[], [.caseConverted], [.errorNormalized],
            by simp [hj, hb, hok], by simp, by simp, by simp⟩
    · by_cases hok : respOk r
      · exact ⟨[], [], [], by simp [hj, hok], by simp, by simp, by simp⟩
      · exact ⟨[], [], [.errorNormalized], by simp [hj, hok], by simp, by simp, by simp⟩

/-- Digits are not ECMAScript white space. -/
theorem not_whitespace_of_digit (c : Char) (h : c.isDigit = true) :
    isJsWhitespace c = false := by
  by_contra hw
  rw [Bool.not_eq_false] at hw
  simp only [isJsWhitespace, Bool.or_eq_true, decide_eq_true_eq] at hw
  rcases hw with ((((h1 | h1) | h1) | h1) | h1) | h1 <;> subst h1 <;>
    exact absurd h (by decide)

/-- Every string matching `^-?\d+(\.\d+)?$` has a parsable prefix, so
`parseFloat` on it is not `NaN`. -/
theorem decimalRegex_parses (s : String) (hs : decimalRegexTest s = true) :
    ∃ q, jsParseFloat s = some q := by
  unfold decimalRegexTest at hs
  unfold jsParseFloat
  rcases hd : s.data with _ | ⟨c0, t0⟩
  · simp [hd] at hs
  · by_cases hm : c0 = '-'
    · subst hm
      simp only [hd] at hs ⊢
      rcases ht : t0 with _ | ⟨c, rest⟩
      · simp [ht] at hs
      · simp only [ht] at hs ⊢
        simp only [Bool.and_eq_true] at hs
        obtain ⟨hc, _⟩ := hs
        simp only [List.dropWhile_cons]
        have hw : isJsWhitespace '-' = false := by decide
        rw [hw]
        simp only [Bool.false_eq_true, if_false]
        simp [parseFloatMagnitude, spanDigits, hc]
        split <;> exact ⟨_, rfl⟩
    · simp only [hd] at hs ⊢
      have hsplit : (match c0 :: t0 with
          | '-' :: t => t
          | t => t) = c0 :: t0 := by
        split
        · rename_i heq
          injection heq with h1 h2
          exact absurd h1 (fun hh => hm hh)
        · rfl
      rw [hsplit] at hs
      simp only [Bool.and_eq_true] at hs
      obtain ⟨hc, _⟩ := hs
      rw [List.dropWhile_cons, not_whitespace_of_digit c0 hc]
      simp only [Bool.false_eq_true, if_false]
      have hp : c0 ≠ '+' := by
        rintro rfl
        exact absurd hc (by decide)
      have harm : (match c0 :: t0 with
          | '-' :: t => parseFloatMagnitude (-1) t
          | '+' :: t => parseFloatMagnitude 1 t
          | t => parseFloatMagnitude 1 t) = parseFloatMagnitude 1 (c0 :: t0) := by
        split
        · rename_i heq
          injection heq with h1 h2
          exact absurd h1 hm
        · rename_i heq
          injection heq with h1 h2
          exact absurd h1 hp
        · rfl
      rw [harm]
      simp [parseFloatMagnitude, spanDigits, hc]
      split <;> exact ⟨_, rfl⟩

/-- C6: for every string matching `^-?\d+(\.\d+)?$` under a key of the
decimal-name set, the reviver returns exactly the number `parseFloat`
yields for it (which is never `NaN` on such strings); a string not
matching the pattern (such as `abc`) under the same key is returned
unchanged. -/
theorem decimal_revival (tz : Int) (key s : String) (hk : key ∈ DECIMAL_KEYS) :
    (decimalRegexTest s = true →
      ∃ q, jsParseFloat s = some q ∧ revivers tz key (.str s) = .num q) ∧
    (decimalRegexTest s = false → revivers tz key (.str s) = .str s) := by
  have hdk : key ∉ DATE_KEYS := by fin_cases hk <;> decide
  constructor
  · intro hs
    obtain ⟨q, hq⟩ := decimalRegex_parses s hs
    exact ⟨q, hq, by simp [revivers, hdk, hk, hs, hq]⟩
  · intro hs
    simp [revivers, hdk, hk, hs]

/-- Witness for C6: `"12.50"` under key `price` revives to the parsed
number, and `"abc"` under the same key is returned unchanged. -/
theorem decimal_revival_witness :
    (∃ q, jsParseFloat "12.50" = some q ∧
      revivers 0 "price" (.str "12.50") = .num q) ∧
    revivers 0 "price" (.str "abc") = .str "abc" :=
  ⟨(decimal_revival 0 "price" "12.50" (by decide)).1 rfl,
   (decimal_revival 0 "price" "abc" (by decide)).2 rfl⟩

/-- C8: totality and identity of the reviver outside the coercion
domain — the reviver is a total pure function (it never raises); every
non-string value passes through untouched; under a date key a string
whose date construction fails is returned unchanged, and under a decimal
key a string whose float parse fails is returned unchanged; and a key in
neither name set has every value returned unmodified. -/
theorem reviver_totality (tz : Int) (key : String) :
    (∀ v : Jv, (∀ s, v ≠ .str s) → revivers tz key v = v) ∧
    (∀ s, key ∈ DATE_KEYS → jsDateParse tz s = none →
      revivers tz key (.str s) = .str s) ∧
    (∀ s, key ∈ DECIMAL_KEYS → jsParseFloat s = none →
      revivers tz key (.str s) = .str s) ∧
    (key ∉ DATE_KEYS → key ∉ DECIMAL_KEYS → ∀ v, revivers tz key v = v) := by
  refine ⟨?_, ?_, ?_, ?_⟩
  · intro v hv
    cases v with
    | str s => exact absurd rfl (hv s)
    | _ => rfl
  · intro s hk hparse
    have hck : key ∉ DECIMAL_KEYS := by fin_cases hk <;> decide
    by_cases hr : dateRegexTest s
    · simp [revivers, hk, hck, hr, hparse]
    · simp [revivers, hk, hck, hr]
  · intro s hk hparse
    have hdk : key ∉ DATE_KEYS := by fin_cases hk <;> decide
    by_cases hr : decimalRegexTest s
    · simp [revivers, hdk, hk, hr, hparse]
    · simp [revivers, hdk, hk, hr]
  · intro hk1 hk2 v
    cases v with
    | str s => simp [revivers, hk1, hk2]
    | _ => rfl

/-- Witness for C8 at concrete inputs: a number value under a date key,
an invalid date string, an unparsable numeral and an unknown key all
pass through unchanged. -/
theorem reviver_totality_witness :
    revivers 0 "createdAt" (.num 3) = .num 3 ∧
    revivers 0 "createdAt" (.str "2024-13-99T00:00:00Z") = .str "2024-13-99T00:00:00Z" ∧
    revivers 0 "price" (.str "twelve") = .str "twelve" ∧
    revivers 0 "symbol" (.str "AAPL") = .str "AAPL" :=
  ⟨(reviver_totality 0 "createdAt").1 (.num 3) (fun s h => by cases h),
   (reviver_totality 0 "createdAt").2.1 "2024-13-99T00:00:00Z" (by decide) rfl,
   (reviver_totality 0 "price").2.2.1 "twelve" (by decide) rfl,
   (reviver_totality 0 "symbol").2.2.2 (by decide) (by decide) (.str "AAPL")⟩

/-- Year-of-era recovery: the era-local inverse formula applied to the
start-of-year prefix sums returns the year of era, including on the
leap day that ends a 400-year era. -/
theorem yoe_inv (yoe doy a b g h i doe : Int)
    (hy : 0 ≤ yoe ∧ yoe ≤ 399)
    (ha : a = yoe / 4) (hb : b = yoe / 100)
    (hdoe : doe = 365*yoe + a - b + doy)
    (hg : g = doe / 1460) (hh : h = doe / 36524) (hi2 : i = doe / 146096)
    (hdoy : 0 ≤ doy ∧ doy ≤ 364 ∨
      (doy = 365 ∧ ((yoe+1) % 4 = 0 ∧ (yoe+1) % 100 ≠ 0 ∨ yoe + 1 = 400))) :
    (doe - g + h - i) / 365 = yoe := by
  have h4 : 4*a ≤ yoe ∧ yoe ≤ 4*a + 3 := by omega
  have h100 : 100*b ≤ yoe ∧ yoe ≤ 100*b + 99 := by omega
  have hab : b ≤ a := by omega
  have hdoy2 : 0 ≤ doy ∧ doy ≤ 365 := by omega
  have hgCase : (g = a ∧ 365*(yoe - 4*a) + a - b + doy < 1460) ∨
      (g = a + 1 ∧ 365*(yoe - 4*a) + a - b + doy ≥ 1460) := by omega
  have hhCase : (h = b ∧ 365*(yoe - 100*b) + a - 25*b + doy < 36524) ∨
      (h = b + 1 ∧ 365*(yoe - 100*b) + a - 25*b + doy ≥ 36524) := by omega
  have hiCase : (i = 0 ∧ doe < 146096) ∨ (i = 1 ∧ doe = 146096) := by omega
  omega

/-- Packaging of `yoe_inv` for the `yoeFromDoe` function. -/
theorem yoeFromDoe_inv (yoe doy : Int)
    (hy : 0 ≤ yoe ∧ yoe ≤ 399)
    (hdoy : 0 ≤ doy ∧ doy ≤ 364 ∨
      (doy = 365 ∧ ((yoe+1) % 4 = 0 ∧ (yoe+1) % 100 ≠ 0 ∨ yoe + 1 = 400))) :
    yoeFromDoe (365*yoe + yoe/4 - yoe/100 + doy) = yoe := by
  unfold yoeFromDoe
  exact yoe_inv yoe doy (yoe/4) (yoe/100) _ _ _ _ hy rfl rfl (by omega) rfl rfl rfl hdoy

/-- Evaluation of `civilFromDays` on a day number presented in
era/year-of-era/day-of-year form. -/
theorem civilFromDays_eval (z era yoe doy : Int)
    (hz : z + 719468 = era * 146097 + (365*yoe + yoe/4 - yoe/100 + doy))
    (hyoe : 0 ≤ yoe ∧ yoe ≤ 399)
    (hdoy : 0 ≤ doy ∧ doy ≤ 364 ∨
      (doy = 365 ∧ ((yoe+1) % 4 = 0 ∧ (yoe+1) % 100 ≠ 0 ∨ yoe + 1 = 400))) :
    civilFromDays z =
      ((if (if (5 * doy + 2) / 153 < 10 then (5 * doy + 2) / 153 + 3
            else (5 * doy + 2) / 153 - 9) ≤ 2
        then yoe + era * 400 + 1 else yoe + era * 400),
       (if (5 * doy + 2) / 153 < 10 then (5 * doy + 2) / 153 + 3
        else (5 * doy + 2) / 153 - 9),
       doy - (153 * ((5 * doy + 2) / 153) + 2) / 5 + 1) := by
  simp only [civilFromDays]
  have h1 : (z + 719468) / 146097 = era := by omega
  have h2 : (z + 719468) % 146097 = 365*yoe + yoe/4 - yoe/100 + doy := by omega
  rw [h1, h2, yoeFromDoe_inv yoe doy hyoe hdoy]
  have h3 : 365*yoe + yoe/4 - yoe/100 + doy - (365 * yoe + yoe / 4 - yoe / 100) = doy := by
    omega
  rw [h3]

/-- Arithmetic characterization of the leap-year test. -/
theorem isLeapYear_iff (y : Int) :
    isLeapYear y = true ↔ ((y % 4 = 0 ∧ y % 100 ≠ 0) ∨ y % 400 = 0) := by
  simp [isLeapYear, Bool.or_eq_true, Bool.and_eq_true, decide_eq_true_eq]

/-- Round trip of the calendar maps: converting a valid civil date to a
day count and back is the identity, for every year. -/
theorem civil_roundtrip (y m d : Int) (hm : 1 ≤ m ∧ m ≤ 12)
    (hd : 1 ≤ d ∧ d ≤ daysInMonth y m) :
    civilFromDays (daysFromCivil y m d) = (y, m, d) := by
  have hm12 : m = 1 ∨ m = 2 ∨ m = 3 ∨ m = 4 ∨ m = 5 ∨ m = 6 ∨ m = 7 ∨ m = 8 ∨
      m = 9 ∨ m = 10 ∨ m = 11 ∨ m = 12 := by omega
  rcases hm12 with rfl | rfl | rfl | rfl | rfl | rfl | rfl | rfl | rfl | rfl | rfl | rfl
  -- January: mp = 10, C = 306, shifted year
  · simp only [daysInMonth] at hd
    norm_num at hd
    have hz : daysFromCivil y 1 d + 719468 =
        (y-1)/400 * 146097 +
          (365*((y-1) - (y-1)/400*400) + ((y-1) - (y-1)/400*400)/4 -
            ((y-1) - (y-1)/400*400)/100 + (306 + d - 1)) := by
      simp only [daysFromCivil]
      norm_num
      omega
    rw [civilFromDays_eval _ ((y-1)/400) ((y-1) - (y-1)/400*400) (306 + d - 1) hz
      ⟨by omega, by omega⟩ (Or.inl ⟨by omega, by omega⟩)]
    have hmp : (5 * (306 + d - 1) + 2) / 153 = 10 := by omega
    rw [hmp]
    norm_num
    omega
  -- February: mp = 11, C = 337, shifted year, leap analysis
  · simp only [daysInMonth] at hd
    norm_num at hd
    have hz : daysFromCivil y 2 d + 719468 =
        (y-1)/400 * 146097 +
          (365*((y-1) - (y-1)/400*400) + ((y-1) - (y-1)/400*400)/4 -
            ((y-1) - (y-1)/400*400)/100 + (337 + d - 1)) := by
      simp only [daysFromCivil]
      norm_num
      omega
    have hdoy : 0 ≤ 337 + d - 1 ∧ 337 + d - 1 ≤ 364 ∨
        ((337 + d - 1) = 365 ∧
          ((((y-1) - (y-1)/400*400)+1) % 4 = 0 ∧ (((y-1) - (y-1)/400*400)+1) % 100 ≠ 0 ∨
            ((y-1) - (y-1)/400*400) + 1 = 400)) := by
      by_cases hleap : isLeapYear y
      · rw [if_pos hleap] at hd
        rcases (isLeapYear_iff y).mp hleap with hc | hc
        · by_cases h29 : d = 29
          · right
            constructor
            · omega
            · omega
          · left
            omega
        · by_cases h29 : d = 29
          · right
            constructor
            · omega
            · omega
          · left
            omega
      · rw [if_neg hleap] at hd
        left
        omega
    rw [civilFromDays_eval _ ((y-1)/400) ((y-1) - (y-1)/400*400) (337 + d - 1) hz
      ⟨by omega, by omega⟩ hdoy]
    have hmp : (5 * (337 + d - 1) + 2) / 153 = 11 := by omega
    rw [hmp]
    norm_num
    omega
  -- March: mp = 0, C = 0, unshifted
  · simp only [daysInMonth] at hd
    norm_num at hd
    have hz : daysFromCivil y 3 d + 719468 =
        y/400 * 146097 +
          (365*(y - y/400*400) + (y - y/400*400)/4 - (y - y/400*400)/100 + (0 + d - 1)) := by
      simp only [daysFromCivil]
      norm_num
      omega
    rw [civilFromDays_eval _ (y/400) (y - y/400*400) (0 + d - 1) hz
      ⟨by omega, by omega⟩ (Or.inl ⟨by omega, by omega⟩)]
    have hmp : (5 * (0 + d - 1) + 2) / 153 = 0 := by omega
    rw [hmp]
    norm_num
  · simp only [daysInMonth] at hd
    norm_num at hd
    have hz : daysFromCivil y 4 d + 719468 =
        y/400 * 146097 +
          (365*(y - y/400*400) + (y - y/400*400)/4 - (y - y/400*400)/100 + (31 + d - 1)) := by
      simp only [daysFromCivil]
      norm_num
      omega
    rw [civilFromDays_eval _ (y/400) (y - y/400*400) (31 + d - 1) hz
      ⟨by omega, by omega⟩ (Or.inl ⟨by omega, by omega⟩)]
    have hmp : (5 * (31 + d - 1) + 2) / 153 = 1 := by omega
    rw [hmp]
    norm_num
    omega
  · simp only [daysInMonth] at hd
    norm_num at hd
    have hz : daysFromCivil y 5 d + 719468 =
        y/400 * 146097 +
          (365*(y - y/400*400) + (y - y/400*400)/4 - (y - y/400*400)/100 + (61 + d - 1)) := by
      simp only [daysFromCivil]
      norm_num
      omega
    rw [civilFromDays_eval _ (y/400) (y - y/400*400) (61 + d - 1) hz
      ⟨by omega, by omega⟩ (Or.inl ⟨by omega, by omega⟩)]
    have hmp : (5 * (61 + d - 1) + 2) / 153 = 2 := by omega
    rw [hmp]
    norm_num
    omega
  · simp only [daysInMonth] at hd
    norm_num at hd
    have hz : daysFromCivil y 6 d + 719468 =
        y/400 * 146097 +
          (365*(y - y/400*400) + (y - y/400*400)/4 - (y - y/400*400)/100 + (92 + d - 1)) := by
      simp only [daysFromCivil]
      norm_num
      omega
    rw [civilFromDays_eval _ (y/400) (y - y/400*400) (92 + d - 1) hz
      ⟨by omega, by omega⟩ (Or.inl ⟨by omega, by omega⟩)]
    have hmp : (5 * (92 + d - 1) + 2) / 153 = 3 := by omega
    rw [hmp]
    norm_num
    omega
  · simp only [daysInMonth] at hd
    norm_num at hd
    have hz : daysFromCivil y 7 d + 719468 =
        y/400 * 146097 +
          (365*(y - y/400*400) + (y - y/400*400)/4 - (y - y/400*400)/100 + (122 + d - 1)) := by
      simp only [daysFromCivil]
      norm_num
      omega
    rw [civilFromDays_eval _ (y/400) (y - y/400*400) (122 + d - 1) hz
      ⟨by omega, by omega⟩ (Or.inl ⟨by omega, by omega⟩)]
    have hmp : (5 * (122 + d - 1) + 2) / 153 = 4 := by omega
    rw [hmp]
    norm_num
    omega
  · simp only [daysInMonth] at hd
    norm_num at hd
    have hz : daysFromCivil y 8 d + 719468 =
        y/400 * 146097 +
          (365*(y - y/400*400) + (y - y/400*400)/4 - (y - y/400*400)/100 + (153 + d - 1)) := by
      simp only [daysFromCivil]
      norm_num
      omega
    rw [civilFromDays_eval _ (y/400) (y - y/400*400) (153 + d - 1) hz
      ⟨by omega, by omega⟩ (Or.inl ⟨by omega, by omega⟩)]
    have hmp : (5 * (153 + d - 1) + 2) / 153 = 5 := by omega
    rw [hmp]
    norm_num
    omega
  · simp only [daysInMonth] at hd
    norm_num at hd
    have hz : daysFromCivil y 9 d + 719468 =
        y/400 * 146097 +
          (365*(y - y/400*400) + (y - y/400*400)/4 - (y - y/400*400)/100 + (184 + d - 1)) := by
      simp only [daysFromCivil]
      norm_num
      omega
    rw [civilFromDays_eval _ (y/400) (y - y/400*400) (184 + d - 1) hz
      ⟨by omega, by omega⟩ (Or.inl ⟨by omega, by omega⟩)]
    have hmp : (5 * (184 + d - 1) + 2) / 153 = 6 := by omega
    rw [hmp]
    norm_num
    omega
  · simp only [daysInMonth] at hd
    norm_num at hd
    have hz : daysFromCivil y 10 d + 719468 =
        y/400 * 146097 +
          (365*(y - y/400*400) + (y - y/400*400)/4 - (y - y/400*400)/100 + (214 + d - 1)) := by
      simp only [daysFromCivil]
      norm_num
      omega
    rw [civilFromDays_eval _ (y/400) (y - y/400*400) (214 + d - 1) hz
      ⟨by omega, by omega⟩ (Or.inl ⟨by omega, by omega⟩)]
    have hmp : (5 * (214 + d - 1) + 2) / 153 = 7 := by omega
    rw [hmp]
    norm_num
    omega
  · simp only [daysInMonth] at hd
    norm_num at hd
    have hz : daysFromCivil y 11 d + 719468 =
        y/400 * 146097 +
          (365*(y - y/400*400) + (y - y/400*400)/4 - (y - y/400*400)/100 + (245 + d - 1)) := by
      simp only [daysFromCivil]
      norm_num
      omega
    rw [civilFromDays_eval _ (y/400) (y - y/400*400) (245 + d - 1) hz
      ⟨by omega, by omega⟩ (Or.inl ⟨by omega, by omega⟩)]
    have hmp : (5 * (245 + d - 1) + 2) / 153 = 8 := by omega
    rw [hmp]
    norm_num
    omega
  · simp only [daysInMonth] at hd
    norm_num at hd
    have hz : daysFromCivil y 12 d + 719468 =
        y/400 * 146097 +
          (365*(y - y/400*400) + (y - y/400*400)/4 - (y - y/400*400)/100 + (275 + d - 1)) := by
      simp only [daysFromCivil]
      norm_num
      omega
    rw [civilFromDays_eval _ (y/400) (y - y/400*400) (275 + d - 1) hz
      ⟨by omega, by omega⟩ (Or.inl ⟨by omega, by omega⟩)]
    have hmp : (5 * (275 + d - 1) + 2) / 153 = 9 := by omega
    rw [hmp]
    norm_num
    omega

/-- Counterexample to C7 as stated: the string `2024-01-15T` matches
`^\d{4}-\d{2}-\d{2}T.*` and sits under a date key, yet `new Date` on it
is invalid (the Date Time String Format requires a time after `T`), so
the reviver returns the string unchanged — not a valid date object. -/
theorem date_revival_counterexample :
    dateRegexTest "2024-01-15T" = true ∧
    jsDateParse 0 "2024-01-15T" = none ∧
    revivers 0 "createdAt" (.str "2024-01-15T") = .str "2024-01-15T" ∧
    ¬ ∃ ms, revivers 0 "createdAt" (.str "2024-01-15T") = .date ms := by
  refine ⟨rfl, rfl, rfl, ?_⟩
  rintro ⟨ms, h⟩
  rw [show revivers 0 "createdAt" (Jv.str "2024-01-15T") = Jv.str "2024-01-15T" from rfl] at h
  cases h

/-- C7 (amended): under a date key, a string matching
`^\d{4}-\d{2}-\d{2}T.*` revives to the very date object `new Date`
constructs from it when that date is valid, and is returned unchanged
when the construction is invalid; a non-matching string is returned
unchanged; and for every instant assembled from in-range UTC components
with hour at most 23 — which is what the parse of a matching string with
the UTC designator `Z` produces — the date components rendered by
`toISOString` equal the original year, month and day, so the ISO
representation's date portion equals the string's date portion. -/
theorem date_revival_amended (tz : Int) (key s : String) (hk : key ∈ DATE_KEYS) :
    (∀ t, dateRegexTest s = true → jsDateParse tz s = some t →
      revivers tz key (.str s) = .date t) ∧
    (dateRegexTest s = true → jsDateParse tz s = none →
      revivers tz key (.str s) = .str s) ∧
    (dateRegexTest s = false → revivers tz key (.str s) = .str s) ∧
    (∀ y mo dy h mi sec ms : Int, 1 ≤ mo → mo ≤ 12 → 1 ≤ dy → dy ≤ daysInMonth y mo →
      0 ≤ h → h ≤ 23 → 0 ≤ mi → mi ≤ 59 → 0 ≤ sec → sec ≤ 59 → 0 ≤ ms → ms ≤ 999 →
      isoDate (daysFromCivil y mo dy * 86400000 +
        ((h * 3600 + mi * 60 + sec) * 1000 + ms)) = (y, mo, dy)) := by
  have hck : key ∉ DECIMAL_KEYS := by fin_cases hk <;> decide
  refine ⟨?_, ?_, ?_, ?_⟩
  · intro t hs ht
    simp [revivers, hk, hck, hs, ht]
  · intro hs ht
    simp [revivers, hk, hck, hs, ht]
  · intro hs
    simp [revivers, hk, hck, hs]
  · intro y mo dy h mi sec ms hmo1 hmo2 hdy1 hdy2 hh1 hh2 hmi1 hmi2 hs1 hs2 hms1 hms2
    unfold isoDate
    have hday : (daysFromCivil y mo dy * 86400000 +
        ((h * 3600 + mi * 60 + sec) * 1000 + ms)) / 86400000 = daysFromCivil y mo dy := by
      omega
    rw [hday]
    exact civil_roundtrip y mo dy ⟨hmo1, hmo2⟩ ⟨hdy1, hdy2⟩

/-- Witness for C7 (amended): the concrete instant
`2024-01-15T10:30:00Z` — the reviver under `createdAt` yields the date
with that epoch value, its ISO rendering is `2024-01-15T10:30:00.000Z`
(date portion `2024-01-15`), and the component-level date-portion
identity holds at `(2024, 1, 15, 10, 30, 0, 0)`. -/
theorem date_revival_amended_witness :
    revivers 0 "createdAt" (.str "2024-01-15T10:30:00Z") = .date 1705314600000 ∧
    isoDate (daysFromCivil 2024 1 15 * 86400000 +
      ((10 * 3600 + 30 * 60 + 0) * 1000 + 0)) = (2024, 1, 15) ∧
    toISOString 1705314600000 = "2024-01-15T10:30:00.000Z" :=
  ⟨(date_revival_amended 0 "createdAt" "2024-01-15T10:30:00Z" (by decide)).1
      1705314600000 rfl rfl,
   (date_revival_amended 0 "createdAt" "x" (by decide)).2.2.2 2024 1 15 10 30 0 0
      (by decide) (by decide) (by decide) (by decide) (by decide) (by decide)
      (by decide) (by decide) (by decide) (by decide) (by decide) (by decide),
   rfl⟩

/-- Counterexample to C10 as stated: ky hands the `afterResponse` hook a
response decorated with the custom `parseJson`, so the hook's own
`response.json()` already applies the reviver to the raw snake_case
body.  On the body `{"timestamp": "2024-01-15T10:30:00Z"}` the hook's
body rewrite is therefore not the pure key rewrite the claim describes:
the value is coerced to a date before any case conversion, and the
re-serialized body carries the normalized ISO string
`2024-01-15T10:30:00.000Z` instead of the original text. -/
theorem revive_before_conversion_counterexample :
    hookBodyRewrite 0
        (.obj (.cons "timestamp" (.str "2024-01-15T10:30:00Z") .nil)) =
      .obj (.cons "timestamp" (.str "2024-01-15T10:30:00.000Z") .nil) ∧
    camelcaseKeysDeep
        (.obj (.cons "timestamp" (.str "2024-01-15T10:30:00Z") .nil)) =
      .obj (.cons "timestamp" (.str "2024-01-15T10:30:00Z") .nil) ∧
    hookBodyRewrite 0
        (.obj (.cons "timestamp" (.str "2024-01-15T10:30:00Z") .nil)) ≠
      camelcaseKeysDeep
        (.obj (.cons "timestamp" (.str "2024-01-15T10:30:00Z") .nil)) := by
  refine ⟨by decide, by decide, ?_⟩
  intro h
  rw [show camelcaseKeysDeep
        (Jv.obj (.cons "timestamp" (.str "2024-01-15T10:30:00Z") .nil)) =
      Jv.obj (.cons "timestamp" (.str "2024-01-15T10:30:00Z") .nil) from by decide] at h
  rw [show hookBodyRewrite 0
        (Jv.obj (.cons "timestamp" (.str "2024-01-15T10:30:00Z") .nil)) =
      Jv.obj (.cons "timestamp" (.str "2024-01-15T10:30:00.000Z") .nil) from by decide] at h
  exact absurd h (by decide)

/-- C10 (amended): the reviver runs twice — once inside the
`afterResponse` hook on the raw snake_case body (ky decorates the hook's
response with the custom `parseJson`) and once at the caller's final
parse of the camelized body.  Every name in `DATE_KEYS` and
`DECIMAL_KEYS` is camelCase (underscore-free), so a value sitting under
an underscore-containing wire key is never coerced by either pass while
that key is intact, and becomes subject to coercion only after the keys
are camelized: on the wire body
`{"created_at": "2024-01-15T10:30:00Z", "profit_loss": "3.5"}` the
hook-stage parse changes nothing, while the full pipeline delivers a
date under `createdAt` and a number under `profitLoss`. -/
theorem revive_after_conversion_amended (tz : Int) (key : String)
    (hkey : hasUnderscore key = true) :
    ((∀ k ∈ DATE_KEYS, hasUnderscore k = false) ∧
      (∀ k ∈ DECIMAL_KEYS, hasUnderscore k = false)) ∧
    (∀ v, revivers tz key v = v) ∧
    parseJsonWithRevivers 0
        (.obj (.cons "created_at" (.str "2024-01-15T10:30:00Z")
          (.cons "profit_loss" (.str "3.5") .nil))) =
      .obj (.cons "created_at" (.str "2024-01-15T10:30:00Z")
        (.cons "profit_loss" (.str "3.5") .nil)) ∧
    implementedBodyPipeline 0
        (.obj (.cons "created_at" (.str "2024-01-15T10:30:00Z")
          (.cons "profit_loss" (.str "3.5") .nil))) =
      .obj (.cons "createdAt" (.date 1705314600000)
        (.cons "profitLoss" (.num (mkRat 35 10)) .nil)) := by
  have hall1 : ∀ k ∈ DATE_KEYS, hasUnderscore k = false := by decide
  have hall2 : ∀ k ∈ DECIMAL_KEYS, hasUnderscore k = false := by decide
  refine ⟨⟨hall1, hall2⟩, ?_, by decide, by decide⟩
  intro v
  have hd : key ∉ DATE_KEYS := by
    intro hm
    rw [hall1 key hm] at hkey
    cases hkey
  have hc : key ∉ DECIMAL_KEYS := by
    intro hm
    rw [hall2 key hm] at hkey
    cases hkey
  cases v with
  | str s => simp [revivers, hd, hc]
  | _ => rfl

/-- Witness for C10 (amended) at the wire key `created_at`: the reviver
leaves any value under it unchanged. -/
theorem revive_after_conversion_amended_witness :
    ((∀ k ∈ DATE_KEYS, hasUnderscore k = false) ∧
      (∀ k ∈ DECIMAL_KEYS, hasUnderscore k = false)) ∧
    (∀ v, revivers 0 "created_at" v = v) ∧
    parseJsonWithRevivers 0
        (.obj (.cons "created_at" (.str "2024-01-15T10:30:00Z")
          (.cons "profit_loss" (.str "3.5") .nil))) =
      .obj (.cons "created_at" (.str "2024-01-15T10:30:00Z")
        (.cons "profit_loss" (.str "3.5") .nil)) ∧
    implementedBodyPipeline 0
        (.obj (.cons "created_at" (.str "2024-01-15T10:30:00Z")
          (.cons "profit_loss" (.str "3.5") .nil))) =
      .obj (.cons "createdAt" (.date 1705314600000)
        (.cons "profitLoss" (.num (mkRat 35 10)) .nil)) :=
  revive_after_conversion_amended 0 "created_at" rfl

/-- Numeric characterization of the ASCII upper-case test. -/
theorem char_upper_iff (c : Char) : c.isUpper = true ↔ 65 ≤ c.toNat ∧ c.toNat ≤ 90 := by
  simp only [Char.isUpper, Bool.and_eq_true, decide_eq_true_eq, ge_iff_le]
  constructor
  · rintro ⟨h1, h2⟩
    exact ⟨UInt32.le_toNat_of_le (by norm_num [UInt32.size]) h1,
           UInt32.toNat_le_of_le (by norm_num [UInt32.size]) h2⟩
  · rintro ⟨h1, h2⟩
    constructor
    · rw [UInt32.le_def, BitVec.le_def]
      simpa [UInt32.toNat] using h1
    · rw [UInt32.le_def, BitVec.le_def]
      simpa [UInt32.toNat] using h2

/-- Numeric characterization of the ASCII lower-case test. -/
theorem char_lower_iff (c : Char) : c.isLower = true ↔ 97 ≤ c.toNat ∧ c.toNat ≤ 122 := by
  simp only [Char.isLower, Bool.and_eq_true, decide_eq_true_eq, ge_iff_le]
  constructor
  · rintro ⟨h1, h2⟩
    exact ⟨UInt32.le_toNat_of_le (by norm_num [UInt32.size]) h1,
           UInt32.toNat_le_of_le (by norm_num [UInt32.size]) h2⟩
  · rintro ⟨h1, h2⟩
    constructor
    · rw [UInt32.le_def, BitVec.le_def]
      simpa [UInt32.toNat] using h1
    · rw [UInt32.le_def, BitVec.le_def]
      simpa [UInt32.toNat] using h2

/-- Numeric characterization of the ASCII digit test. -/
theorem char_digit_iff (c : Char) : c.isDigit = true ↔ 48 ≤ c.toNat ∧ c.toNat ≤ 57 := by
  simp only [Char.isDigit, Bool.and_eq_true, decide_eq_true_eq, ge_iff_le]
  constructor
  · rintro ⟨h1, h2⟩
    exact ⟨UInt32.le_toNat_of_le (by norm_num [UInt32.size]) h1,
           UInt32.toNat_le_of_le (by norm_num [UInt32.size]) h2⟩
  · rintro ⟨h1, h2⟩
    constructor
    · rw [UInt32.le_def, BitVec.le_def]
      simpa [UInt32.toNat] using h1
    · rw [UInt32.le_def, BitVec.le_def]
      simpa [UInt32.toNat] using h2

/-- Characters with equal code points are equal. -/
theorem char_toNat_inj (c d : Char) (h : c.toNat = d.toNat) : c = d := by
  have := congrArg Char.ofNat h
  simpa using this

/-- Code points avoid the surrogate range. -/
theorem char_toNat_lt (c : Char) : c.toNat < 55296 ∨ 57343 < c.toNat := by
  rcases c.valid with h | ⟨h1, h2⟩
  · left
    exact UInt32.toNat_lt_of_lt (by norm_num [UInt32.size]) h
  · right
    exact UInt32.lt_toNat_of_lt (by norm_num [UInt32.size]) h1

/-- Lower-casing fixes everything but the upper-case letters. -/
theorem toLower_eq_self (c : Char) (h : c.isUpper = false) : c.toLower = c := by
  rw [Char.toLower]
  split
  · rename_i hc
    rw [(char_upper_iff c).mpr ⟨hc.1, hc.2⟩] at h
    cases h
  · rfl

/-- Upper-casing fixes everything but the lower-case letters. -/
theorem toUpper_eq_self (c : Char) (h : c.isLower = false) : c.toUpper = c := by
  rw [Char.toUpper]
  split
  · rename_i hc
    rw [(char_lower_iff c).mpr ⟨hc.1, hc.2⟩] at h
    cases h
  · rfl

/-- Code point of the lower-cased form of an upper-case letter. -/
theorem toNat_toLower_of_upper (c : Char) (h : c.isUpper = true) :
    c.toLower.toNat = c.toNat + 32 := by
  obtain ⟨h1, h2⟩ := (char_upper_iff c).mp h
  rw [Char.toLower, if_pos ⟨h1, h2⟩, Char.ofNat, dif_pos (Or.inl (by omega))]
  simp [Char.ofNatAux, Char.toNat, UInt32.ofNat', UInt32.toNat]

/-- Lower-casing an upper-case letter yields a lower-case letter. -/
theorem toLower_isLower_of_upper (c : Char) (h : c.isUpper = true) :
    c.toLower.isLower = true := by
  obtain ⟨h1, h2⟩ := (char_upper_iff c).mp h
  rw [char_lower_iff, toNat_toLower_of_upper c h]
  omega

/-- Upper-casing undoes lower-casing on upper-case letters. -/
theorem toUpper_toLower (c : Char) (h : c.isUpper = true) : c.toLower.toUpper = c := by
  obtain ⟨h1, h2⟩ := (char_upper_iff c).mp h
  have hl := toNat_toLower_of_upper c h
  simp only [Char.toUpper]
  rw [if_pos (by omega), hl, show c.toNat + 32 - 32 = c.toNat by omega]
  exact Char.ofNat_toNat c

/-- Case split of a boolean disjunction. -/
theorem bor_split (a b : Bool) (h : (a || b) = true) : a = true ∨ b = true := by
  cases a
  · right
    simpa using h
  · left
    rfl

/-- Code-point ranges of alphanumeric characters. -/
theorem alnum_toNat (c : Char) (h : (c.isAlpha || c.isDigit) = true) :
    (48 ≤ c.toNat ∧ c.toNat ≤ 57) ∨ (65 ≤ c.toNat ∧ c.toNat ≤ 90) ∨
    (97 ≤ c.toNat ∧ c.toNat ≤ 122) := by
  rcases bor_split _ _ h with ha | hd
  · rcases bor_split _ _ ha with hu | hl
    · exact Or.inr (Or.inl ((char_upper_iff c).mp hu))
    · exact Or.inr (Or.inr ((char_lower_iff c).mp hl))
  · exact Or.inl ((char_digit_iff c).mp hd)

/-- Alphanumeric characters are not camelcase separators. -/
theorem camelSep_false_of_alnum (c : Char) (h : (c.isAlpha || c.isDigit) = true) :
    isCamelSep c = false := by
  have hr := alnum_toNat c h
  simp only [isCamelSep, Bool.or_eq_false_iff, decide_eq_false_iff_not]
  refine ⟨⟨⟨?_, ?_⟩, ?_⟩, ?_⟩ <;>
    · rintro rfl
      revert hr
      decide

/-- Alphanumeric characters are not white space. -/
theorem jsWhitespace_false_of_alnum (c : Char) (h : (c.isAlpha || c.isDigit) = true) :
    isJsWhitespace c = false := by
  have hr := alnum_toNat c h
  simp only [isJsWhitespace, Bool.or_eq_false_iff, decide_eq_false_iff_not]
  refine ⟨⟨⟨⟨⟨?_, ?_⟩, ?_⟩, ?_⟩, ?_⟩, ?_⟩ <;>
    · rintro rfl
      revert hr
      decide

/-- Alphanumeric characters differ from the word-boundary marker. -/
theorem ne_marker_of_alnum (c : Char) (h : (c.isAlpha || c.isDigit) = true) :
    c ≠ marker := by
  have hr := alnum_toNat c h
  rintro rfl
  revert hr
  decide

/-- Alphanumeric characters are identifier characters. -/
theorem identChar_of_alnum (c : Char) (h : (c.isAlpha || c.isDigit) = true) :
    isIdentChar c = true := by
  simp only [isIdentChar]
  rw [h]
  rfl

/-- Alphanumeric characters are word characters. -/
theorem wordChar_of_alnum (c : Char) (h : (c.isAlpha || c.isDigit) = true) :
    isWordChar c = true := by
  simp only [isWordChar]
  exact h

/-- The head of a safe key is alphanumeric. -/
theorem safe_head_alnum (a : Char) (l : List Char) (h : safeTail (a :: l) = true) :
    (a.isAlpha || a.isDigit) = true := by
  cases l with
  | nil => simpa [safeTail] using h
  | cons b rest =>
    simp only [safeTail, Bool.and_eq_true] at h
    exact h.1.1.1

/-- Safety is preserved by dropping the head character. -/
theorem safe_tail_weaken (a : Char) (l : List Char) (h : safeTail (a :: l) = true) :
    safeTail l = true := by
  cases l with
  | nil => rfl
  | cons b rest =>
    simp only [safeTail, Bool.and_eq_true] at h
    exact h.2

/-- Every character of a safe key is alphanumeric. -/
theorem safe_all_alnum : ∀ (l : List Char), safeTail l = true →
    ∀ c ∈ l, (c.isAlpha || c.isDigit) = true
  | [], _, c, hc => by cases hc
  | a :: rest, h, c, hc => by
    rcases List.mem_cons.mp hc with h1 | h2
    · subst h1
      exact safe_head_alnum _ rest h
    · exact safe_all_alnum rest (safe_tail_weaken a rest h) c h2

/-- A safe key has no two adjacent upper-case letters. -/
theorem safe_noUU (l : List Char) (h : safeTail l = true) : noUU l = true := by
  induction l with
  | nil => rfl
  | cons a rest ih =>
    cases rest with
    | nil => rfl
    | cons b rest2 =>
      simp only [safeTail, Bool.and_eq_true] at h
      simp only [noUU, Bool.and_eq_true]
      exact ⟨h.1.1.2, ih h.2⟩

/-- The marker insertion keeps the head character in place. -/
theorem marked_shape (x : Char) (xs : List Char) :
    ∃ t, marked (x :: xs) = x :: t := by
  cases xs with
  | nil => exact ⟨[], rfl⟩
  | cons b rest =>
    simp only [marked]
    by_cases hb : b.isUpper = true
    · rw [if_pos hb]
      exact ⟨_, rfl⟩
    · rw [if_neg hb]
      exact ⟨_, rfl⟩

/-- On alphanumeric keys without adjacent upper-case letters the first
no-case split pass inserts exactly one marker before each upper-case
letter. -/
theorem split1_eq_marked : ∀ (l : List Char),
    (∀ c ∈ l, (c.isAlpha || c.isDigit) = true) → noUU l = true →
    noCaseSplit1 l = marked l
  | [], _, _ => rfl
  | [a], _, _ => rfl
  | a :: b :: rest, hal, huu => by
    have huu2 : noUU (b :: rest) = true := by
      simp only [noUU, Bool.and_eq_true] at huu
      exact huu.2
    have hrec := split1_eq_marked (b :: rest)
      (fun c hc => hal c (List.mem_cons_of_mem a hc)) huu2
    simp only [noCaseSplit1, marked]
    by_cases hb : b.isUpper = true
    · have hnu : a.isUpper = false := by
        simp only [noUU, Bool.and_eq_true] at huu
        have h1 := huu.1
        rw [hb] at h1
        simpa using h1
      have ha : (a.isLower || a.isDigit) = true := by
        have h1 := hal a (List.mem_cons_self a _)
        simp only [Char.isAlpha] at h1
        rcases bor_split _ _ h1 with h2 | h3
        · rcases bor_split _ _ h2 with h4 | h5
          · rw [h4] at hnu
            cases hnu
          · rw [h5]
            rfl
        · rw [h3]
          simp
      rw [ha, hb, hrec]
      simp
    · have hb2 : b.isUpper = false := by
        revert hb
        cases b.isUpper <;> simp
      rw [hb2, hrec]
      simp

/-- The second no-case split pass is the identity in the absence of
adjacent upper-case letters. -/
theorem split2_id : ∀ (l : List Char), noUU l = true → noCaseSplit2 l = l
  | [], _ => rfl
  | [a], _ => rfl
  | [a, b], _ => rfl
  | a :: b :: c :: rest, huu => by
    have huu2 : noUU (b :: c :: rest) = true := by
      simp only [noUU, Bool.and_eq_true] at huu
      simp only [noUU, Bool.and_eq_true]
      exact huu.2
    have hab : (a.isUpper && b.isUpper) = false := by
      simp only [noUU, Bool.and_eq_true] at huu
      have h1 := huu.1
      revert h1
      cases a.isUpper <;> cases b.isUpper <;> simp
    simp only [noCaseSplit2]
    rw [hab]
    simp only [Bool.false_and, Bool.false_eq_true, if_false]
    rw [split2_id (b :: c :: rest) huu2]

/-- Marker insertion preserves the absence of adjacent upper-case
letters. -/
theorem marked_noUU : ∀ (l : List Char), noUU l = true → noUU (marked l) = true
  | [], _ => rfl
  | [a], _ => rfl
  | a :: b :: rest, huu => by
    have huu2 : noUU (b :: rest) = true := by
      simp only [noUU, Bool.and_eq_true] at huu
      exact huu.2
    have hrec := marked_noUU (b :: rest) huu2
    obtain ⟨t, ht⟩ := marked_shape b rest
    simp only [marked]
    by_cases hb : b.isUpper = true
    · rw [if_pos hb, ht]
      rw [ht] at hrec
      simp only [noUU, Bool.and_eq_true] at hrec ⊢
      refine ⟨by simp [marker], by simp [marker], hrec⟩
    · rw [if_neg hb, ht]
      rw [ht] at hrec
      simp only [noUU, Bool.and_eq_true] at hrec ⊢
      constructor
      · simp only [noUU, Bool.and_eq_true] at huu
        exact huu.1
      · exact hrec

/-- A marker after the head character closes the head word. -/
theorem wordsOf_cons_marker (a : Char) (m : List Char) (ha : isWordChar a = true) :
    wordsOf (a :: marker :: m) = [a] :: wordsOf m := by
  have hmm : isWordChar marker = false := by decide
  cases m with
  | nil => simp [wordsOf, ha, hmm]
  | cons x xs => simp [wordsOf, ha, hmm]

/-- Two adjacent word characters extend the same word. -/
theorem wordsOf_cons_word (a b : Char) (m : List Char) (w : List Char)
    (ws : List (List Char)) (ha : isWordChar a = true) (hb : isWordChar b = true)
    (h : wordsOf (b :: m) = w :: ws) :
    wordsOf (a :: b :: m) = (a :: w) :: ws := by
  simp only [wordsOf, ha, hb, if_true]
  rw [h]
  rfl

/-- A list headed by a word character splits into a first word headed by
that character. -/
theorem wordsOf_word_head (x : Char) (xs : List Char) (hx : isWordChar x = true) :
    ∃ w ws, wordsOf (x :: xs) = (x :: w) :: ws := by
  cases xs with
  | nil => exact ⟨[], [], by simp [wordsOf, hx]⟩
  | cons r xs2 =>
    by_cases hr : isWordChar r = true
    · obtain ⟨w, ws, hws⟩ := wordsOf_word_head r xs2 hr
      exact ⟨r :: w, ws, by simp only [wordsOf, hx, hr, if_true]; rw [hws]; rfl⟩
    · exact ⟨[], wordsOf (r :: xs2), by simp [wordsOf, hx, hr]⟩

/-- The join commutes with prepending a character to the first word. -/
theorem joinUnderscore_head_cons (c : Char) (w : List Char) (ws : List (List Char)) :
    joinUnderscore ((c :: w) :: ws) = c :: joinUnderscore (w :: ws) := by
  cases ws
  · rfl
  · rfl

/-- The split-lowercase-join composition of the snake conversion maps an
alphanumeric key to its canonical snake form. -/
theorem words_marked_join : ∀ (l : List Char),
    (∀ c ∈ l, (c.isAlpha || c.isDigit) = true) → l ≠ [] →
    joinUnderscore ((wordsOf (marked l)).map (List.map Char.toLower)) = joinForm l
  | [], _, hne => absurd rfl hne
  | [a], hal, _ => by
    have hw : isWordChar a = true := wordChar_of_alnum a (hal a (by simp))
    simp [marked, wordsOf, hw, joinForm, jfTail, joinUnderscore]
  | a :: b :: rest, hal, _ => by
    have hwa : isWordChar a = true := wordChar_of_alnum a (hal a (by simp))
    have hwb : isWordChar b = true := wordChar_of_alnum b (hal b (by simp))
    have hrec := words_marked_join (b :: rest)
      (fun c hc => hal c (List.mem_cons_of_mem a hc)) (by simp)
    obtain ⟨t, ht⟩ := marked_shape b rest
    have hwh := wordsOf_word_head b t hwb
    rw [← ht] at hwh
    obtain ⟨w, ws, hws⟩ := hwh
    by_cases hb : b.isUpper = true
    · have hm : marked (a :: b :: rest) = a :: marker :: marked (b :: rest) := by
        simp only [marked]
        rw [if_pos hb]
      rw [hm, wordsOf_cons_marker a (marked (b :: rest)) hwa, hws]
      rw [hws] at hrec
      simp only [List.map_cons] at hrec ⊢
      simp only [joinUnderscore] at hrec ⊢
      rw [hrec]
      simp [joinForm, jfTail, hb]
    · have hm : marked (a :: b :: rest) = a :: marked (b :: rest) := by
        simp only [marked]
        rw [if_neg hb]
      rw [hm, ht]
      have hws2 : wordsOf (b :: t) = (b :: w) :: ws := by
        rw [← ht]
        exact hws
      rw [wordsOf_cons_word a b t (b :: w) ws hwa hwb hws2]
      rw [hws] at hrec
      simp only [List.map_cons] at hrec ⊢
      rw [joinUnderscore_head_cons]
      rw [hrec]
      simp only [joinForm, jfTail]
      rw [if_neg hb]

/-- Lower-case letters are not upper-case. -/
theorem not_upper_of_lower (c : Char) (h : c.isLower = true) : c.isUpper = false := by
  have h1 := (char_lower_iff c).mp h
  by_contra hx
  rw [Bool.not_eq_false] at hx
  have h2 := (char_upper_iff c).mp hx
  omega

/-- Upper-case letters are not lower-case. -/
theorem not_lower_of_upper (c : Char) (h : c.isUpper = true) : c.isLower = false := by
  have h1 := (char_upper_iff c).mp h
  by_contra hx
  rw [Bool.not_eq_false] at hx
  have h2 := (char_lower_iff c).mp hx
  omega

/-- Digits are not upper-case. -/
theorem not_upper_of_digit (c : Char) (h : c.isDigit = true) : c.isUpper = false := by
  have h1 := (char_digit_iff c).mp h
  by_contra hx
  rw [Bool.not_eq_false] at hx
  have h2 := (char_upper_iff c).mp hx
  omega

/-- Lower-casing preserves alphanumeric characters. -/
theorem toLower_alnum (c : Char) (h : (c.isAlpha || c.isDigit) = true) :
    (c.toLower.isAlpha || c.toLower.isDigit) = true := by
  by_cases hu : c.isUpper = true
  · rw [Char.isAlpha, toLower_isLower_of_upper c hu]
    simp
  · rw [toLower_eq_self c (by revert hu; cases c.isUpper <;> simp)]
    exact h

/-- A lower-cased alphanumeric character is not upper-case. -/
theorem toLower_not_upper (c : Char) (_h : (c.isAlpha || c.isDigit) = true) :
    c.toLower.isUpper = false := by
  by_cases hu : c.isUpper = true
  · exact not_upper_of_lower _ (toLower_isLower_of_upper c hu)
  · rw [toLower_eq_self c (by revert hu; cases c.isUpper <;> simp)]
    revert hu
    cases c.isUpper <;> simp

/-- The separator pass of camelcase inverts the canonical snake tail,
restoring each upper-case letter from its underscore-lowercase pair. -/
theorem camelPass1Go_jfTail : ∀ (l : List Char),
    (∀ c ∈ l, (c.isAlpha || c.isDigit) = true) →
    camelPass1Go [] (jfTail l) = l.tail
  | [], _ => rfl
  | [c], _ => rfl
  | c :: d :: rest, hal => by
    have hd : (d.isAlpha || d.isDigit) = true := hal d (by simp)
    have hrec := camelPass1Go_jfTail (d :: rest)
      (fun x hx => hal x (List.mem_cons_of_mem c hx))
    simp only [jfTail]
    by_cases hdu : d.isUpper = true
    · rw [if_pos hdu]
      simp only [camelPass1Go]
      rw [if_pos (by decide : isCamelSep '_' = true)]
      rw [if_neg (by rw [camelSep_false_of_alnum _ (toLower_alnum d hd)]; simp)]
      rw [if_neg (by simp)]
      rw [if_pos (identChar_of_alnum _ (toLower_alnum d hd))]
      rw [toUpper_toLower d hdu]
      simp only [jfTail] at hrec
      rw [hrec]
      rfl
    · rw [if_neg hdu]
      have hdl : d.toLower = d :=
        toLower_eq_self d (by revert hdu; cases d.isUpper <;> simp)
      rw [hdl]
      simp only [camelPass1Go]
      rw [if_neg (by rw [camelSep_false_of_alnum _ hd]; simp)]
      rw [if_pos (by simp [List.isEmpty])]
      simp only [jfTail] at hrec
      rw [hrec]
      rfl

/-- The digit pass of camelcase is the identity on safe keys: any letter
after a digit is already upper-case. -/
theorem camelPass2_id : ∀ (l : List Char), safeTail l = true → camelPass2 l = l
  | [], _ => rfl
  | [c], _ => rfl
  | c :: d :: rest, hs => by
    simp only [camelPass2]
    have hs2 : safeTail (d :: rest) = true := safe_tail_weaken c _ hs
    have hd : (d.isAlpha || d.isDigit) = true := safe_head_alnum d rest hs2
    by_cases hcd : c.isDigit = true
    · by_cases hdd : d.isDigit = true
      · rw [if_pos hcd, if_pos hdd, camelPass2_id (d :: rest) hs2]
      · have hdalpha : d.isAlpha = true := by
          rcases bor_split _ _ hd with h1 | h2
          · exact h1
          · rw [h2] at hdd
            cases hdd rfl
        have hdupper : d.isUpper = true := by
          simp only [safeTail, Bool.and_eq_true] at hs
          have h3 := hs.1.2
          revert h3
          rw [hcd, hdalpha]
          cases d.isUpper <;> simp
        rw [if_pos hcd, if_neg hdd, if_pos (identChar_of_alnum d hd)]
        rw [toUpper_eq_self d (not_lower_of_upper d hdupper)]
        rw [camelPass2_id rest (safe_tail_weaken d rest hs2)]
    · rw [if_neg hcd, camelPass2_id (d :: rest) hs2]

/-- Characters of the canonical snake tail: underscores and non-upper
alphanumerics. -/
theorem jfTail_chars : ∀ (l : List Char),
    (∀ c ∈ l, (c.isAlpha || c.isDigit) = true) →
    ∀ c ∈ jfTail l, c = '_' ∨ ((c.isAlpha || c.isDigit) = true ∧ c.isUpper = false)
  | [], _, c, hc => by cases hc
  | [x], _, c, hc => by cases hc
  | x :: d :: rest, hal, c, hc => by
    have hd : (d.isAlpha || d.isDigit) = true := hal d (by simp)
    have hrec := jfTail_chars (d :: rest)
      (fun y hy => hal y (List.mem_cons_of_mem x hy))
    simp only [jfTail] at hc
    by_cases hdu : d.isUpper = true
    · rw [if_pos hdu] at hc
      rcases List.mem_cons.mp hc with h1 | h2
      · exact Or.inl h1
      · rcases List.mem_cons.mp h2 with h3 | h4
        · subst h3
          exact Or.inr ⟨toLower_alnum d hd, toLower_not_upper d hd⟩
        · exact hrec c h4
    · rw [if_neg hdu] at hc
      rcases List.mem_cons.mp hc with h1 | h2
      · subst h1
        exact Or.inr ⟨toLower_alnum d hd, toLower_not_upper d hd⟩
      · exact hrec c h2

/-- Dropping with an everywhere-false predicate keeps the list. -/
theorem dropWhile_false (p : Char → Bool) : ∀ (l : List Char),
    (∀ c ∈ l, p c = false) → l.dropWhile p = l
  | [], _ => rfl
  | c :: rest, h => by
    rw [List.dropWhile_cons, h c (by simp)]
    simp

/-- Trimming a list without white space is the identity. -/
theorem jsTrim_eq_self (l : List Char) (h : ∀ c ∈ l, isJsWhitespace c = false) :
    jsTrim l = l := by
  unfold jsTrim
  rw [dropWhile_false _ l h]
  rw [dropWhile_false _ l.reverse (fun c hc => h c (List.mem_reverse.mp hc))]
  exact List.reverse_reverse l

/-- Lower-casing a list without upper-case letters is the identity. -/
theorem map_toLower_id : ∀ (l : List Char), (∀ c ∈ l, c.isUpper = false) →
    l.map Char.toLower = l
  | [], _ => rfl
  | c :: rest, h => by
    simp only [List.map_cons]
    rw [toLower_eq_self c (h c (by simp)),
      map_toLower_id rest (fun x hx => h x (List.mem_cons_of_mem c hx))]

/-- A list without upper-case letters has none. -/
theorem hasUpperChar_false (l : List Char) (h : ∀ c ∈ l, c.isUpper = false) :
    hasUpperChar l = false := by
  simp only [hasUpperChar, List.any_eq_false]
  intro c hc
  rw [h c hc]
  simp

/-- Characters of the canonical snake form: underscores and non-upper
alphanumerics. -/
theorem joinForm_chars (c : Char) (rest : List Char) (hc : c.isLower = true)
    (hal : ∀ x ∈ c :: rest, (x.isAlpha || x.isDigit) = true) :
    ∀ x ∈ joinForm (c :: rest), x = '_' ∨ ((x.isAlpha || x.isDigit) = true ∧ x.isUpper = false) := by
  intro x hx
  simp only [joinForm] at hx
  rcases List.mem_cons.mp hx with h1 | h2
  · subst h1
    rw [toLower_eq_self c (not_upper_of_lower c hc)]
    exact Or.inr ⟨hal c (by simp), not_upper_of_lower c hc⟩
  · exact jfTail_chars (c :: rest) hal x h2

/-- The canonical snake tail of a two-character key is nonempty. -/
theorem jfTail_ne_nil (x r : Char) (t : List Char) : jfTail (x :: r :: t) ≠ [] := by
  simp only [jfTail]
  by_cases hr : r.isUpper = true
  · rw [if_pos hr]
    simp
  · rw [if_neg hr]
    simp

/-- The camelcase key transform inverts the canonical snake form of a
safe key. -/
theorem camelCaseKey_joinForm (c : Char) (rest : List Char)
    (hc : c.isLower = true) (hs : safeTail (c :: rest) = true) :
    camelCaseKey (String.mk (joinForm (c :: rest))) = String.mk (c :: rest) := by
  have hal := safe_all_alnum _ hs
  have hchars := joinForm_chars c rest hc hal
  have hnws : ∀ x ∈ joinForm (c :: rest), isJsWhitespace x = false := by
    intro x hx
    rcases hchars x hx with h1 | h2
    · subst h1
      decide
    · exact jsWhitespace_false_of_alnum x h2.1
  have hnup : ∀ x ∈ joinForm (c :: rest), x.isUpper = false := by
    intro x hx
    rcases hchars x hx with h1 | h2
    · subst h1
      decide
    · exact h2.2
  have hlowc : c.toLower = c := toLower_eq_self c (not_upper_of_lower c hc)
  unfold camelCaseKey
  rw [jsTrim_eq_self _ hnws]
  cases rest with
  | nil =>
    simp only [joinForm, jfTail, hlowc]
    norm_num
    rw [hlowc]
  | cons r t =>
    have hne := jfTail_ne_nil c r t
    have hlen0 : ¬ (joinForm (c :: r :: t)).length = 0 := by
      simp only [joinForm, List.length_cons]
      omega
    have hlen1 : ¬ (joinForm (c :: r :: t)).length = 1 := by
      simp only [joinForm, List.length_cons]
      intro hcon
      exact hne (List.length_eq_zero.mp (by omega))
    rw [if_neg hlen0, if_neg hlen1]
    rw [hasUpperChar_false _ hnup]
    simp only [Bool.false_eq_true, if_false]
    have hd1 : (joinForm (c :: r :: t)).dropWhile isCamelSep = joinForm (c :: r :: t) := by
      simp only [joinForm]
      rw [List.dropWhile_cons, hlowc, camelSep_false_of_alnum c (hal c (by simp))]
      simp
    rw [hd1, map_toLower_id _ hnup]
    simp only [camelPass1, joinForm]
    rw [hlowc]
    simp only [camelPass1Go]
    rw [if_neg (by rw [camelSep_false_of_alnum c (hal c (by simp))]; simp)]
    rw [if_pos (by simp [List.isEmpty])]
    rw [camelPass1Go_jfTail (c :: r :: t) hal]
    show String.mk (camelPass2 (c :: r :: t)) = String.mk (c :: r :: t)
    rw [camelPass2_id _ hs]

/-- The snakecase key transform maps a safe key to its canonical snake
form. -/
theorem snakeCaseKey_joinForm (c : Char) (rest : List Char)
    (hs : safeTail (c :: rest) = true) :
    snakeCaseKey (String.mk (c :: rest)) = String.mk (joinForm (c :: rest)) := by
  have hal := safe_all_alnum _ hs
  have huu := safe_noUU _ hs
  unfold snakeCaseKey
  show String.mk (joinUnderscore
    ((wordsOf (noCaseSplit2 (noCaseSplit1 (c :: rest)))).map (List.map Char.toLower))) = _
  rw [split1_eq_marked _ hal huu, split2_id _ (marked_noUU _ huu),
    words_marked_join _ hal (by simp)]

/-- Key-level round trip: snake then camel is the identity on safe
keys. -/
theorem key_roundtrip (s : String) (h : camelRoundSafe s = true) :
    camelCaseKey (snakeCaseKey s) = s := by
  rcases s with ⟨l⟩
  rcases l with _ | ⟨c, rest⟩
  · cases h
  · simp only [camelRoundSafe, Bool.and_eq_true] at h
    rw [snakeCaseKey_joinForm c rest h.2, camelCaseKey_joinForm c rest h.1 h.2]

-- Deep round trip over values, arrays and object field lists.
mutual
theorem roundtrip_val (v : Jv) (h : allKeysVal camelRoundSafe v = true) :
    mapKeysVal camelCaseKey (mapKeysVal snakeCaseKey v) = v := by
  cases v with
  | arr xs =>
    simp only [allKeysVal] at h
    simp only [mapKeysVal]
    rw [roundtrip_list xs h]
  | obj fs =>
    simp only [allKeysVal] at h
    simp only [mapKeysVal]
    rw [roundtrip_fields fs h]
  | _ => rfl
theorem roundtrip_list (xs : JvList) (h : allKeysList camelRoundSafe xs = true) :
    mapKeysList camelCaseKey (mapKeysList snakeCaseKey xs) = xs := by
  cases xs with
  | nil => rfl
  | cons x xs2 =>
    simp only [allKeysList, Bool.and_eq_true] at h
    simp only [mapKeysList]
    rw [roundtrip_val x h.1, roundtrip_list xs2 h.2]
theorem roundtrip_fields (fs : JvFields) (h : allKeysFields camelRoundSafe fs = true) :
    mapKeysFields camelCaseKey (mapKeysFields snakeCaseKey fs) = fs := by
  cases fs with
  | nil => rfl
  | cons k v tl =>
    simp only [allKeysFields, Bool.and_eq_true] at h
    simp only [mapKeysFields]
    rw [key_roundtrip k h.1.1, roundtrip_val v h.1.2, roundtrip_fields tl h.2]
end

/-- C9 (amended): the snake-then-camel round trip is the identity for
every JSON-compatible value all of whose object keys, recursively, are
identifier-style keys that start with a lower-case letter, have no two
adjacent upper-case letters, and upper-case any letter directly
following a digit; that key domain is a subset of the identifier-style
keys the claim quantifies over.  (The claim fails on the full
identifier-style domain, and non-conforming keys are not in general
passed through unchanged.) -/
theorem case_roundtrip_amended (v : Jv) (h : allKeysVal camelRoundSafe v = true) :
    camelcaseKeysDeep (snakecaseKeysDeep v) = v ∧
    (∀ s : String, camelRoundSafe s = true → isIdentStyleKey s = true) := by
  constructor
  · exact roundtrip_val v h
  · intro s hsafe
    rcases s with ⟨l⟩
    rcases l with _ | ⟨c, rest⟩
    · cases hsafe
    · simp only [camelRoundSafe, Bool.and_eq_true] at hsafe
      have hal := safe_all_alnum _ hsafe.2
      simp only [isIdentStyleKey]
      rw [Bool.and_eq_true]
      constructor
      · rw [Char.isAlpha, hsafe.1]
        simp
      · rw [List.all_eq_true]
        intro x hx
        exact hal x (List.mem_cons_of_mem c hx)

/-- Counterexample to C9 as stated: the key `ID` matches
`[a-zA-Z][a-zA-Z0-9]*`, yet snake-casing sends it to `id` and
camel-casing keeps `id`, so the round trip is not the identity; and the
non-conforming key `foo_bar` is not passed through conversion unchanged
(camel-casing rewrites it to `fooBar`). -/
theorem case_roundtrip_counterexample :
    isIdentStyleKey "ID" = true ∧
    camelcaseKeysDeep (snakecaseKeysDeep (.obj (.cons "ID" .null .nil))) =
      .obj (.cons "id" .null .nil) ∧
    camelcaseKeysDeep (snakecaseKeysDeep (.obj (.cons "ID" .null .nil))) ≠
      .obj (.cons "ID" .null .nil) ∧
    isIdentStyleKey "foo_bar" = false ∧
    camelCaseKey "foo_bar" = "fooBar" := by
  refine ⟨by decide, by decide, ?_, by decide, by decide⟩
  intro hcon
  rw [show camelcaseKeysDeep (snakecaseKeysDeep (Jv.obj (.cons "ID" .null .nil))) =
    Jv.obj (.cons "id" .null .nil) from by decide] at hcon
  exact absurd hcon (by decide)

/-- Witness for C9 (amended) on a concrete object with two safe camel
keys. -/
theorem case_roundtrip_amended_witness :
    camelcaseKeysDeep (snakecaseKeysDeep
      (.obj (.cons "firstName" (.str "Ada")
        (.cons "atrStopLossMultiplePercentage" (.num 2) .nil)))) =
      .obj (.cons "firstName" (.str "Ada")
        (.cons "atrStopLossMultiplePercentage" (.num 2) .nil)) ∧
    (∀ s : String, camelRoundSafe s = true → isIdentStyleKey s = true) :=
  case_roundtrip_amended
    (.obj (.cons "firstName" (.str "Ada")
      (.cons "atrStopLossMultiplePercentage" (.num 2) .nil))) (by decide)

end AutoTrader
